import Mathlib

/-!
Verification of the SpaceNet decoding core (nilearn.decoding): a shallow
embedding in Lean 4 of the spatial differential operators of
objective_functions.py and of the alpha-grid generator, early-stopping
callback, path/cross-validation driver, mask utilities and parameter
validation of space_net.py, together with proofs and refutations of the
stated specification claims.

Machine floats are idealized as exact real arithmetic (ℝ); float scores
that may carry minus-infinity are idealized as EReal, and the NaN sentinel
used by the path driver is modelled by the none case of Option EReal.
External collaborators (the sklearn univariate selector, the backend
solvers from space_net_solvers, the masker) appear as explicit function
parameters, exactly as the source passes them around.
-/

namespace SpaceNet

/-! ## Generic list helpers (numpy-style reductions on flat arrays) -/

/-- Maximum of a list of reals, numpy np.max style: the fold starts from the
head; the value on the empty list (where numpy raises) is a junk 0. -/
noncomputable def listMax : List ℝ → ℝ
  | [] => 0
  | a :: t => t.foldl max a

/-- Minimum of a list of reals, numpy np.min style, junk 0 on the empty
list. -/
noncomputable def listMin : List ℝ → ℝ
  | [] => 0
  | a :: t => t.foldl min a

/-- Peak-to-peak range of a list, numpy ndarray.ptp: max minus min. -/
noncomputable def ptpL (l : List ℝ) : ℝ := listMax l - listMin l

/-- Dot product of two flat arrays, numpy np.dot on 1-D arrays. -/
def dotL (a b : List ℝ) : ℝ := (List.zipWith (fun x y => x * y) a b).sum

/-- Number of columns of a row-major matrix (width of the first row). -/
def ncols (X : List (List ℝ)) : ℕ := (X.headD []).length

/-- Transpose of a rectangular row-major matrix: one row per column
index. -/
def transposeL (X : List (List ℝ)) : List (List ℝ) :=
  (List.range (ncols X)).map (fun j => X.map (fun row => row.getD j 0))

/-- Matrix-vector product X.T.dot(y) for a design matrix stored as a list
of rows: one entry per column of X. -/
def xtyL (X : List (List ℝ)) (y : List ℝ) : List ℝ :=
  (transposeL X).map (fun col => dotL col y)

/-- Mean of a list of reals, numpy np.mean (junk 0/0 = 0 on the empty
list, where numpy yields NaN). -/
noncomputable def npMean (l : List ℝ) : ℝ := l.sum / l.length

/-- First differences of a list, numpy np.diff. -/
def diffs : List ℝ → List ℝ
  | a :: b :: t => (b - a) :: diffs (b :: t)
  | _ => []

/-! ## Alpha-grid generator (space_net.py, _space_net_alpha_grid) -/

/-- Entries of numpy np.linspace(start, stop, num) in exact arithmetic:
num points from start to stop inclusive. -/
noncomputable def linspace (start stop : ℝ) (num : ℕ) : List ℝ :=
  (List.range num).map
    (fun i : ℕ => start + (i : ℝ) * (stop - start) / ((num : ℝ) - 1))

/-- Entries of numpy np.logspace(start, stop, num): ten to the power of
each linspace node. -/
noncomputable def logspace (start stop : ℝ) (num : ℕ) : List ℝ :=
  (linspace start stop num).map (fun t => (10 : ℝ) ^ t)

/-- Largest absolute entry of X.T.dot(y), the raw squared-error alpha_max
of _space_net_alpha_grid. -/
noncomputable def maxAbsXty (X : List (List ℝ)) (y : List ℝ) : ℝ :=
  listMax ((xtyL X y).map (fun t => |t|))

section AlphaGrid

open Classical

/-- Class-balanced pseudo-residual vector b of the logistic alpha_max
bound in _space_net_alpha_grid: b is zeros_like(y) with b = m_minus / m
where y = 1 and b = -m_plus / m where y = -1. -/
noncomputable def pseudoResid (y : List ℝ) : List ℝ :=
  let m : ℝ := y.length
  let mPlus : ℝ := (y.map (fun t => if t = 1 then (1 : ℝ) else 0)).sum
  let mMinus : ℝ := (y.map (fun t => if t = -1 then (1 : ℝ) else 0)).sum
  y.map (fun t => if t = 1 then mMinus / m else if t = -1 then -mPlus / m else 0)

/-- Raw alpha_max of _space_net_alpha_grid before the sample-size
normalization: max abs of X.T b for the logistic case, falling back to
max abs of X.T y when that bound is exactly zero, and max abs of X.T y
for squared error. -/
noncomputable def rawAlphaMax (X : List (List ℝ)) (y : List ℝ) (logistic : Bool) : ℝ :=
  if logistic then
    if listMax ((xtyL X (pseudoResid y)).map (fun t => |t|)) = 0 then maxAbsXty X y
    else listMax ((xtyL X (pseudoResid y)).map (fun t => |t|))
  else maxAbsXty X y

/-- Final alpha_max of _space_net_alpha_grid: the raw bound divided by
n_samples times l1_ratio, where an l1_ratio equal to exactly zero is first
replaced by 1e-3. -/
noncomputable def computedAlphaMax (X : List (List ℝ)) (y : List ℝ) (l1r : ℝ)
    (logistic : Bool) : ℝ :=
  let l1 := if l1r = 0 then (1 / 1000 : ℝ) else l1r
  rawAlphaMax X y logistic / ((X.length : ℝ) * l1)

/-- Shallow embedding of _space_net_alpha_grid (space_net.py lines
137-196): a single-point grid for n_alphas = 1, otherwise the reversed
log-spaced grid from alpha_min = alpha_max * eps up to alpha_max. -/
noncomputable def space_net_alpha_grid (X : List (List ℝ)) (y : List ℝ)
    (eps : ℝ) (n_alphas : ℕ) (l1r : ℝ) (logistic : Bool) : List ℝ :=
  let alpha_max := computedAlphaMax X y l1r logistic
  if n_alphas = 1 then [alpha_max]
  else
    let alpha_min := alpha_max * eps
    (logspace (Real.logb 10 alpha_min) (Real.logb 10 alpha_max) n_alphas).reverse

end AlphaGrid

/-! ## Early stopping callback (space_net.py, EarlyStoppingCallback).

The callback state is the running iteration counter plus the rolling list
of recorded test scores; scores are idealized as finite reals. -/

/-- Mutable state of an EarlyStoppingCallback instance: the running
counter and the list of recorded test scores. -/
structure ESCState where
  counter : ℕ
  test_scores : List ℝ

section EarlyStopping

open Classical

/-- Shallow embedding of EarlyStoppingCallback.__call__ (space_net.py
lines 217-242): increments the counter, records the score of the current
iterate, and at the periodic checkpoints (counter above 20 and congruent
to 2 mod 10) signals a stop when the mean of np.diff applied to the
reversed last five recorded scores is at least -1e-4. Non-checkpoint
calls return none (the Python function falls through returning None). -/
noncomputable def escCall (st : ESCState) (score : ℝ) : ESCState × Option Bool :=
  let counter := st.counter + 1
  let scores0 := if counter = 0 then [] else st.test_scores
  let scores := scores0 ++ [score]
  let st2 : ESCState := ⟨counter, scores⟩
  if ¬(20 < counter ∧ counter % 10 = 2) then (st2, none)
  else if 4 < scores.length ∧
      -(1 / 10000 : ℝ) ≤ npMean (diffs ((scores.drop (scores.length - 5)).reverse))
  then (st2, some true)
  else (st2, some false)

/-- Run a fresh EarlyStoppingCallback over a whole sequence of per-call
scores, returning the final state and the return value of the last call
(none when no call was made). -/
noncomputable def escRun (scores : List ℝ) : ESCState × Option Bool :=
  scores.foldl (fun p s => escCall p.1 s) (⟨0, []⟩, none)

end EarlyStopping

/-! ## Held-out scoring (space_net.py, EarlyStoppingCallback.test_score).

Scores are EReal so that the minus-infinity sentinel of the degenerate
branch is representable exactly. -/

/-- Pearson correlation coefficient np.corrcoef(a, b)[1, 0] in exact
arithmetic: centered cross sum over the product of root square sums. -/
noncomputable def pearsonr (a b : List ℝ) : ℝ :=
  let am := npMean a
  let bm := npMean b
  (List.zipWith (fun x y => (x - am) * (y - bm)) a b).sum /
    (Real.sqrt ((a.map (fun x => (x - am) ^ 2)).sum) *
     Real.sqrt ((b.map (fun y => (y - bm) ^ 2)).sum))

section Scoring

open Classical

/-- Average-rank vector of scipy.stats.rankdata (the rank transform used
by spearmanr): each element is ranked by the count of strictly smaller
elements plus half the tie class, one-based. -/
noncomputable def rankdata (a : List ℝ) : List ℝ :=
  a.map (fun x =>
    (a.map (fun y => if y < x then (1 : ℝ) else 0)).sum +
    ((a.map (fun y => if y = x then (1 : ℝ) else 0)).sum + 1) / 2)

/-- Spearman rank correlation scipy.stats.spearmanr(a, b)[0]: the Pearson
correlation of the average-rank transforms. -/
noncomputable def spearmanr (a b : List ℝ) : ℝ := pearsonr (rankdata a) (rankdata b)

/-- Shallow embedding of EarlyStoppingCallback.test_score (space_net.py
lines 256-282): drops the intercept coordinate for classification,
returns the minus-infinity pair on a constant (zero peak-to-peak) weight
map, and otherwise returns the spearman/pearson correlation pair between
the linear prediction and the held-out response, spearman first for
classification and pearson first for regression. -/
noncomputable def test_score (is_classif : Bool) (X_test : List (List ℝ))
    (y_test : List ℝ) (w : List ℝ) : EReal × EReal :=
  let w2 := if is_classif then w.dropLast else w
  if ptpL w2 = 0 then (⊥, ⊥)
  else
    let y_pred := X_test.map (fun row => dotL row w2)
    let sp := spearmanr y_pred y_test
    let pe := pearsonr y_pred y_test
    if is_classif then ((sp : EReal), (pe : EReal)) else ((pe : EReal), (sp : EReal))

end Scoring

/-! ## Brain masks (space_net.py, _crop_mask and the mask manipulation of
_univariate_feature_screening).

A 3-D boolean array is embedded as its three dimensions plus a total
Bool-valued function read only inside those bounds. -/

/-- A 3-D boolean mask: dimensions and the voxel values. -/
structure Mask3 where
  n1 : ℕ
  n2 : ℕ
  n3 : ℕ
  f : ℕ → ℕ → ℕ → Bool

/-- Whether a coordinate triple lies inside the bounds of the mask. -/
def Mask3.inBounds (m : Mask3) (i j k : ℕ) : Bool :=
  decide (i < m.n1) && decide (j < m.n2) && decide (k < m.n3)

/-- Whether a voxel is active: inside bounds and set. -/
def Mask3.activeB (m : Mask3) (i j k : ℕ) : Bool := m.inBounds i j k && m.f i j k

/-- First coordinates of active voxels (np.where(mask)[0], deduplicated;
only min and max of the axis are consumed). -/
def Mask3.idx1 (m : Mask3) : List ℕ :=
  (List.range m.n1).filter (fun i =>
    (List.range m.n2).any (fun j => (List.range m.n3).any (fun k => m.f i j k)))

/-- Second coordinates of active voxels (np.where(mask)[1],
deduplicated). -/
def Mask3.idx2 (m : Mask3) : List ℕ :=
  (List.range m.n2).filter (fun j =>
    (List.range m.n1).any (fun i => (List.range m.n3).any (fun k => m.f i j k)))

/-- Third coordinates of active voxels (np.where(mask)[2],
deduplicated). -/
def Mask3.idx3 (m : Mask3) : List ℕ :=
  (List.range m.n3).filter (fun k =>
    (List.range m.n1).any (fun i => (List.range m.n2).any (fun j => m.f i j k)))

/-- Minimum of a list of naturals, junk 0 on the empty list (numpy
raises there). -/
def natListMin : List ℕ → ℕ
  | [] => 0
  | a :: t => t.foldl min a

/-- Maximum of a list of naturals, junk 0 on the empty list. -/
def natListMax : List ℕ → ℕ
  | [] => 0
  | a :: t => t.foldl max a

/-- Shallow embedding of _crop_mask (space_net.py lines 55-65): slice the
mask to the bounding box from one below the minimal active coordinate
(clamped at zero, which is exactly truncated ℕ subtraction) through the
maximal active coordinate on each axis. -/
def crop_mask (m : Mask3) : Mask3 :=
  let iMin := natListMin m.idx1 - 1
  let iMax := natListMax m.idx1
  let jMin := natListMin m.idx2 - 1
  let jMax := natListMax m.idx2
  let kMin := natListMin m.idx3 - 1
  let kMax := natListMax m.idx3
  ⟨iMax + 1 - iMin, jMax + 1 - jMin, kMax + 1 - kMin,
   fun x y z => m.f (x + iMin) (y + jMin) (z + kMin)⟩

/-- Binary erosion with the default scipy.ndimage cross structuring
element (center plus the six face neighbours) and border value 0: a voxel
survives only if it and all six neighbours are set, neighbours outside the
bounds of the array counting as unset. -/
def erode3 (m : Mask3) (g : ℕ → ℕ → ℕ → Bool) (i j k : ℕ) : Bool :=
  g i j k &&
  (decide (0 < i) && g (i - 1) j k) && (decide (i + 1 < m.n1) && g (i + 1) j k) &&
  (decide (0 < j) && g i (j - 1) k) && (decide (j + 1 < m.n2) && g i (j + 1) k) &&
  (decide (0 < k) && g i j (k - 1)) && (decide (k + 1 < m.n3) && g i j (k + 1))

/-- Binary dilation with the default cross structuring element and border
value 0: a voxel is set if it or any in-bounds face neighbour is set. -/
def dilate3 (m : Mask3) (g : ℕ → ℕ → ℕ → Bool) (i j k : ℕ) : Bool :=
  g i j k ||
  (decide (0 < i) && g (i - 1) j k) || (decide (i + 1 < m.n1) && g (i + 1) j k) ||
  (decide (0 < j) && g i (j - 1) k) || (decide (j + 1 < m.n2) && g i (j + 1) k) ||
  (decide (0 < k) && g i j (k - 1)) || (decide (k + 1 < m.n3) && g i j (k + 1))

/-- Mask manipulation of _univariate_feature_screening (space_net.py
lines 124-131): scatter the screened support into the original mask
(voxels outside the original support stay off), erode then dilate, then
zero everything outside the original mask again. The scattered support
bits are abstracted by the function supp since their flat order comes
from the external univariate selector. -/
def screened_mask (m : Mask3) (supp : ℕ → ℕ → ℕ → Bool) : Mask3 :=
  let maskSupp := fun i j k => m.f i j k && supp i j k
  ⟨m.n1, m.n2, m.n3, fun i j k => dilate3 m (erode3 m maskSupp) i j k && m.f i j k⟩

/-! ## Parameter validation (space_net.py, BaseSpaceNet.check_params).

The BaseSpaceNet constructor stores the hyperparameters and calls
check_params as its last statement, so an invalid configuration raises at
constructor time, before fit is ever invoked. The isinstance number check
on alpha and l1_ratio is vacuous in this typed embedding. -/

/-- Outcome of BaseSpaceNet.check_params: a raised ValueError message, or
success recording whether the boundary l1_ratio warning was emitted. -/
inductive CheckResult where
  | err : String → CheckResult
  | ok : Bool → CheckResult

/-- The class attribute SUPPORTED_PENALTIES of BaseSpaceNet. -/
def SUPPORTED_PENALTIES : List String := ["smooth-lasso", "tv-l1"]

/-- The class attribute SUPPORTED_LOSSES of BaseSpaceNet. -/
def SUPPORTED_LOSSES : List String := ["mse", "logistic"]

/-- ASCII lowercase conversion, Python str.lower on the identifier
strings validated by check_params. -/
def lowerStr (s : String) : String := String.mk (s.data.map Char.toLower)

/-- The loss membership test of check_params: loss is None or its
lowercase form is a supported loss. -/
def lossOk (loss : Option String) : Prop :=
  ∀ l, loss = some l → lowerStr l ∈ SUPPORTED_LOSSES

/-- The logistic-loss test of check_params: loss is not None and its
lowercase form is the logistic loss. -/
def lossIsLogistic (loss : Option String) : Prop :=
  ∃ l, loss = some l ∧ lowerStr l = "logistic"

section CheckParams

open Classical

/-- Shallow embedding of BaseSpaceNet.check_params (space_net.py lines
599-636), performing the checks in source order: l1_ratio range (with the
boundary warning), screening_percentile range, penalty membership, loss
membership, and the logistic-needs-classification consistency check. -/
noncomputable def check_params (penalty : String) (loss : Option String)
    (l1r sp : ℝ) (is_classif : Bool) : CheckResult :=
  if ¬(0 ≤ l1r ∧ l1r ≤ 1) then
    CheckResult.err "l1_ratio must be in the interval 0 1"
  else if ¬(0 ≤ sp ∧ sp ≤ 100) then
    CheckResult.err "screening_percentile should be in the interval 0 100"
  else if ¬(lowerStr penalty ∈ SUPPORTED_PENALTIES) then
    CheckResult.err "penalty parameter must be one of the supported penalties"
  else if ¬ lossOk loss then
    CheckResult.err "loss parameter must be one of the supported losses"
  else if lossIsLogistic loss ∧ is_classif = false then
    CheckResult.err "logistic loss is only available for classification problems"
  else
    CheckResult.ok (decide (l1r = 0 ∨ l1r = 1))

end CheckParams

/-! ## Prediction (space_net.py, BaseSpaceNet.predict and _standardize_X).

The masker transform is the identity on an already-flat matrix; the
regression branch applies the affine decision function of the sklearn
LinearModel base class (X times coef plus intercept). -/

/-- Column means of a design matrix, X.mean(axis=0). -/
noncomputable def colMean {m p : ℕ} (X : Fin m → Fin p → ℝ) (j : Fin p) : ℝ :=
  (∑ i, X i j) / m

/-- Column standard deviations of a design matrix, X.std(axis=0)
(population std, the numpy default ddof = 0). -/
noncomputable def colStd {m p : ℕ} (X : Fin m → Fin p → ℝ) (j : Fin p) : ℝ :=
  Real.sqrt ((∑ i, (X i j - colMean X j) ^ 2) / m)

/-- Shallow embedding of BaseSpaceNet._standardize_X (space_net.py lines
650-679): subtract the column means of the argument and divide by the
column standard deviations of the argument. -/
noncomputable def standardize_X {m p : ℕ} (X : Fin m → Fin p → ℝ) :
    Fin m → Fin p → ℝ :=
  fun i j => (X i j - colMean X j) / colStd X j

/-- Shallow embedding of the regression path of BaseSpaceNet.predict
(space_net.py lines 919-941): when the estimator was fit with
standardize, the incoming matrix is re-standardized by its own batch
statistics via _standardize_X, then the learned affine map is applied. -/
noncomputable def predict {m p : ℕ} (standardize : Bool) (coef : Fin p → ℝ)
    (intercept : ℝ) (X : Fin m → Fin p → ℝ) : Fin m → ℝ :=
  let X2 := if standardize then standardize_X X else X
  fun i => (∑ j, coef j * X2 i j) + intercept

/-! ## Path / cross-validation driver (space_net.py, path_scores).

The backend solver (space_net_solvers, imported by space_net.py) and the
sklearn-backed univariate screening are external collaborators and enter
as function parameters, exactly as path_scores receives its solver
argument in the source. A solver call takes the centered training data,
one alpha, the cropped mask, the warm-start init and a flag telling
whether the early-stopping callback is installed, and returns the weight
vector together with the next warm-start state. -/

/-- Type of a backend solver adapter as consumed by path_scores. -/
def SolverT : Type :=
  List (List ℝ) → List ℝ → ℝ → Mask3 → Option (List ℝ) → Bool →
    List ℝ × Option (List ℝ)

/-- Type of the univariate screening collaborator as consumed by
path_scores: reduced design matrix, screened mask, and flat boolean
support over the original feature axis. -/
def ScreenT : Type :=
  List (List ℝ) → List ℝ → Mask3 → List (List ℝ) × Mask3 × List Bool

/-- Modelled from the spec: the centering collaborator center_data
(imported by space_net.py from the nilearn _utils.fixes module, which is
not under src). With fit_intercept set and normalize off it centers the
columns of X and the response y by their means and returns both means. -/
noncomputable def center_data (X : List (List ℝ)) (y : List ℝ) :
    List (List ℝ) × List ℝ × List ℝ × ℝ :=
  let Xmean := (transposeL X).map npMean
  let ymean := npMean y
  (X.map (fun row => List.zipWith (fun a b => a - b) row Xmean),
   y.map (fun t => t - ymean), Xmean, ymean)

section PathDriver

open Classical

/-- Descending sort, Python sorted(alphas)[::-1]. -/
noncomputable def sortDesc (l : List ℝ) : List ℝ :=
  (l.insertionSort (fun a b => a ≤ b)).reverse

/-- Scatter a reduced weight vector back into the boolean support of the
original feature axis, zero-filling dropped positions (the fancy
assignment w_[support] = best_w of path_scores). -/
def scatterW : List Bool → List ℝ → List ℝ
  | [], _ => []
  | true :: s, v => v.headD 0 :: scatterW s v.tail
  | false :: s, v => 0 :: scatterW s v

/-- Un-screening step of path_scores (space_net.py lines 402-409): when
screening was applied, scatter the weights (keeping the trailing
intercept coordinate aside in the classification case) back to the
original feature dimensionality. -/
def unscreen_w (do_scr is_classif : Bool) (support : List Bool) (w : List ℝ) :
    List ℝ :=
  if do_scr then
    if is_classif then scatterW support w.dropLast ++ [w.getLastD 0]
    else scatterW support w
  else w

/-- Intercept recovery of path_scores (space_net.py lines 411-414): when
the weight vector has exactly the pre-screening feature length, append
ymean minus the dot product of Xmean with it (Xmean defaulting to
zeros). -/
noncomputable def add_intercept (n_features : ℕ) (Xmean2 : Option (List ℝ))
    (ymean : ℝ) (w : List ℝ) : List ℝ :=
  if w.length = n_features then
    w ++ [ymean - dotL ((Xmean2.getD (List.replicate n_features 0))) w]
  else w

/-- Shallow embedding of EarlyStoppingCallback._debias (space_net.py
lines 244-254): rescale the weights by the ratio of the prediction and
response inner products when the prediction has positive energy. -/
noncomputable def debiasW (X_test : List (List ℝ)) (y_test : List ℝ)
    (w : List ℝ) : List ℝ :=
  let y_pred := X_test.map (fun row => dotL row w)
  let scaling := dotL y_pred y_pred
  if 0 < scaling then w.map (fun t => dotL y_pred y_test / scaling * t) else w

/-- Rolling state of the per-alpha scoring loop of path_scores: the best
primary and secondary scores, the best alpha, the warm start captured at
the best alpha, the current warm start and the recorded test scores (some
score per scanned alpha; none is the NaN sentinel). -/
structure SelState where
  best_score : EReal
  best_secundary_score : EReal
  best_alpha : ℝ
  best_init : Option (List ℝ)
  init : Option (List ℝ)
  test_scores : List (Option EReal)

/-- One iteration of the per-alpha scoring loop of path_scores
(space_net.py lines 368-389): solve at this alpha with the early-stopping
callback installed, score the returned weights on the held-out split,
record the primary score, and update the running best only when the
primary score is finite and improves (with the secondary score breaking
ties). -/
noncomputable def path_step (solver : SolverT)
    (X_train : List (List ℝ)) (y_train : List ℝ) (mask : Mask3)
    (is_classif : Bool) (X_test : List (List ℝ)) (y_test : List ℝ)
    (st : SelState) (alpha : ℝ) : SelState :=
  let r := solver X_train y_train alpha mask st.init true
  let w := r.1
  let init2 := r.2
  let sc := test_score is_classif X_test y_test w
  let score := sc.1
  let sec := sc.2
  let scores := st.test_scores ++ [some score]
  if (score ≠ ⊥ ∧ score ≠ ⊤) ∧
      (st.best_score < score ∨
        (score = st.best_score ∧ st.best_secundary_score < sec))
  then ⟨score, sec, alpha, init2, init2, scores⟩
  else ⟨st.best_score, st.best_secundary_score, st.best_alpha, st.best_init,
        init2, scores⟩

/-- Screening decision of path_scores (space_net.py line 334): screen
only with more than 100 features and a screening percentile below 100. -/
noncomputable def ps_doScr (X : List (List ℝ)) (sp : ℝ) : Bool :=
  decide (100 < ncols X) && decide (sp < 100)

/-- Row selection X[idx] by a list of sample indices. -/
def selRows (X : List (List ℝ)) (idx : List ℕ) : List (List ℝ) :=
  idx.map (fun i => X.getD i [])

/-- Response selection y[idx] by a list of sample indices. -/
def selY (y : List ℝ) (idx : List ℕ) : List ℝ :=
  idx.map (fun i => y.getD i 0)

/-- The design matrix used by path_scores after the optional univariate
screening. -/
noncomputable def ps_X1 (screen : ScreenT) (X : List (List ℝ)) (y : List ℝ)
    (mask : Mask3) (sp : ℝ) : List (List ℝ) :=
  if ps_doScr X sp then (screen X y mask).1 else X

/-- The mask used by path_scores: the (possibly screened) mask cropped to
its tight bounding box. -/
noncomputable def ps_mask2 (screen : ScreenT) (X : List (List ℝ))
    (y : List ℝ) (mask : Mask3) (sp : ℝ) : Mask3 :=
  crop_mask (if ps_doScr X sp then (screen X y mask).2.1 else mask)

/-- Shallow embedding of path_scores (space_net.py lines 285-416) for one
fold and one class: decide univariate screening, crop the mask, slice the
train and test rows, center the training data, resolve and sort the alpha
grid descending, and either run the per-alpha scoring loop followed by a
full-precision refit at the best alpha (non-empty test set), or skip all
scoring, refit once at the first alpha and record the NaN sentinel (empty
test set); finally un-screen the weights and append the recovered
intercept. An empty sorted grid hits the IndexError of alphas[0]; the
debias branch with an empty test set hits the NameError on the never
created early_stopper. -/
noncomputable def path_scores (solver : SolverT) (screen : ScreenT)
    (X : List (List ℝ)) (y : List ℝ) (mask : Mask3)
    (alphas0 : Option (List ℝ)) (l1r : ℝ) (train test : List ℕ)
    (n_alphas : ℕ) (eps : ℝ) (is_classif : Bool) (init : Option (List ℝ))
    (debias : Bool) (Xmean2 : Option (List ℝ)) (ymean : ℝ) (sp : ℝ) :
    Except String (List (Option EReal) × List ℝ × ℝ) :=
  let n_features := ncols X
  let do_screening := ps_doScr X sp
  let support := (screen X y mask).2.2
  let mask2 := ps_mask2 screen X y mask sp
  let X_train := selRows (ps_X1 screen X y mask sp) train
  let y_train := selY y train
  let X_test := selRows (ps_X1 screen X y mask sp) test
  let y_test := selY y test
  let Xc := (center_data X_train y_train).1
  let yc := (center_data X_train y_train).2.1
  let alphas1 :=
    match alphas0 with
    | some a => a
    | none => space_net_alpha_grid Xc yc eps n_alphas l1r is_classif
  match sortDesc alphas1 with
  | [] => Except.error "IndexError: the alpha grid is empty"
  | a0 :: rest =>
    if test.length ≠ 0 then
      let final := (a0 :: rest).foldl
        (path_step solver Xc yc mask2 is_classif X_test y_test)
        ⟨⊥, ⊥, a0, init, init, []⟩
      let rw2 := solver Xc yc final.best_alpha mask2 final.best_init false
      let bw1 := if debias then debiasW X_test y_test rw2.1 else rw2.1
      let bw2 := unscreen_w do_screening is_classif support bw1
      let bw3 := add_intercept n_features Xmean2 ymean bw2
      Except.ok (final.test_scores, bw3, final.best_alpha)
    else
      let rw2 := solver Xc yc a0 mask2 init false
      if debias then Except.error "NameError: early_stopper is not defined"
      else
        let bw2 := unscreen_w do_screening is_classif support rw2.1
        let bw3 := add_intercept n_features Xmean2 ymean bw2
        Except.ok ([none], bw3, a0)

end PathDriver

/-! ## Spatial operators (objective_functions.py, gradient_id and div_id).

An n-dimensional numpy array of shape s is embedded as a nested
Fin-indexed function; the stacked gradient array of shape
(ndim + 1, *s) is a Fin (ndim + 1)-indexed family of such arrays. -/

/-- Shape-indexed n-dimensional real array. -/
@[reducible] def NDArray : List ℕ → Type
  | [] => ℝ
  | n :: s => Fin n → NDArray s

/-- Pointwise additive group structure on n-dimensional arrays. -/
instance ndAddCommGroup : (s : List ℕ) → AddCommGroup (NDArray s)
  | [] => inferInstanceAs (AddCommGroup ℝ)
  | n :: s =>
    letI := ndAddCommGroup s
    inferInstanceAs (AddCommGroup (Fin n → NDArray s))

/-- Pointwise real scalar multiplication on n-dimensional arrays. -/
instance ndModule : (s : List ℕ) → Module ℝ (NDArray s)
  | [] => Semiring.toModule
  | n :: s =>
    letI := ndAddCommGroup s
    letI := ndModule s
    inferInstanceAs (Module ℝ (Fin n → NDArray s))

/-- Full inner product of two arrays of the same shape: the sum over all
positions of the product of entries (the flattened np.dot). -/
def ndDot : (s : List ℕ) → NDArray s → NDArray s → ℝ
  | [], x, y => x * y
  | _n :: s, u, v => ∑ i, ndDot s (u i) (v i)

/-- Forward finite difference along axis d, exactly as filled in by
gradient_id (objective_functions.py lines 201-207): position i along the
axis holds the difference of positions i + 1 and i, and the final
position holds zero. -/
def gradAxis : (s : List ℕ) → ℕ → NDArray s → NDArray s
  | [], _, u => u
  | n :: s, 0, u => fun i =>
      if h : (i : ℕ) + 1 < n then u ⟨(i : ℕ) + 1, h⟩ - u i else 0
  | _n :: s, d + 1, u => fun i => gradAxis s d (u i)

/-- Divergence stencil along axis d, exactly as accumulated by div_id
(objective_functions.py lines 156-162): the reversed finite-difference
stencil with the boundary rows of the three slice assignments. -/
def divAxis : (s : List ℕ) → ℕ → NDArray s → NDArray s
  | [], _, g => g
  | n :: s, 0, g => fun i =>
      (if (i : ℕ) + 1 < n then g i else 0) -
      (if 0 < (i : ℕ) then
        g ⟨(i : ℕ) - 1, Nat.lt_of_le_of_lt (Nat.sub_le _ _) i.isLt⟩ else 0)
  | _n :: s, d + 1, g => fun i => divAxis s d (g i)

/-- Shallow embedding of gradient_id (objective_functions.py lines
172-214): a stacked array whose first ndim channels are the forward
finite differences scaled by 1 - l1_ratio and whose last channel is the
image scaled by l1_ratio. -/
def gradient_id (s : List ℕ) (r : ℝ) (img : NDArray s) :
    Fin (s.length + 1) → NDArray s :=
  fun k =>
    if h : (k : ℕ) < s.length then (1 - r) • gradAxis s (k : ℕ) img
    else r • img

/-- Shallow embedding of div_id (objective_functions.py lines 129-169):
the per-axis divergence stencils accumulated over the first ndim
channels, scaled by 1 - l1_ratio, minus l1_ratio times the last
channel. -/
def div_id (s : List ℕ) (r : ℝ) (grad : Fin (s.length + 1) → NDArray s) :
    NDArray s :=
  ((1 - r) • ∑ d : Fin s.length, divAxis s (d : ℕ) (grad d.castSucc)) -
    r • grad (Fin.last s.length)

/-- Extension of a Fin-indexed family of arrays to all naturals by zero;
used to reindex boundary sums in the adjointness proof. -/
def ndExt {n : ℕ} {s : List ℕ} (u : Fin n → NDArray s) (j : ℕ) : NDArray s :=
  if h : j < n then u ⟨j, h⟩ else 0

/-- Concrete three-sample one-feature batch used to exhibit the batch
dependence of predict: samples 0, 1, 2. -/
def XA : Fin 3 → Fin 1 → ℝ :=
  fun i _ => if (i : ℕ) = 0 then 0 else if (i : ℕ) = 1 then 1 else 2

/-- A second batch sharing sample 0 with XA but with a different third
sample: samples 0, 1, 5. -/
def XB : Fin 3 → Fin 1 → ℝ :=
  fun i _ => if (i : ℕ) = 0 then 0 else if (i : ℕ) = 1 then 1 else 5

/-- A 3x3x3 all-active mask used as a witness for the screening
containment. -/
def mask3All : Mask3 := ⟨3, 3, 3, fun _ _ _ => true⟩

/-- A 2x2x2 mask with the single active voxel (1, 1, 1), used as a
witness for the cropping containment. -/
def mask3One : Mask3 :=
  ⟨2, 2, 2, fun i j k => decide (i = 1) && decide (j = 1) && decide (k = 1)⟩

/-- Score sequence refuting the chronological reading of the stopping
criterion: seventeen flat scores followed by five steeply rising ones. -/
def cexScores : List ℝ :=
  [0, 0, 0, 0, 0, 0, 0, 0, 0, 0, 0, 0, 0, 0, 0, 0, 0, 1, 2, 3, 4, 5]

/-- Twenty-two flat scores: a plateau on which the early stopper fires at
its first checkpoint. -/
def flatScores : List ℝ :=
  [0, 0, 0, 0, 0, 0, 0, 0, 0, 0, 0, 0, 0, 0, 0, 0, 0, 0, 0, 0, 0, 0]

/-- Concrete one-dimensional image [1, 0] used to refute the unsigned
adjointness identity. -/
def uC : NDArray [2] := fun i => if (i : ℕ) = 0 then 1 else 0

/-- Concrete stacked array of shape (2, 2): first channel [1, 0], second
channel zero. -/
def vC : Fin 2 → NDArray [2] :=
  fun k i => if (k : ℕ) = 0 ∧ (i : ℕ) = 0 then 1 else 0

/-! ## Theorems: claim-by-claim verification -/

/-- Claim C9: constructing any BaseSpaceNet (whose constructor ends by
calling check_params) with a penalty outside the supported penalties, a
non-None loss outside the supported losses, l1_ratio outside the unit
interval, screening_percentile outside [0, 100], or the logistic loss
with is_classif false, yields a ValueError at constructor time; every
in-range configuration succeeds, warning exactly when l1_ratio is 0 or
1. -/
theorem claim_C9_check_params (penalty : String) (loss : Option String)
    (l1r sp : ℝ) (is_classif : Bool) :
    (((0 ≤ l1r ∧ l1r ≤ 1) ∧ (0 ≤ sp ∧ sp ≤ 100) ∧
        lowerStr penalty ∈ SUPPORTED_PENALTIES ∧ lossOk loss ∧
        ¬(is_classif = false ∧ lossIsLogistic loss)) →
      ∃ b, check_params penalty loss l1r sp is_classif = CheckResult.ok b ∧
        (b = true ↔ (l1r = 0 ∨ l1r = 1))) ∧
    (¬((0 ≤ l1r ∧ l1r ≤ 1) ∧ (0 ≤ sp ∧ sp ≤ 100) ∧
        lowerStr penalty ∈ SUPPORTED_PENALTIES ∧ lossOk loss ∧
        ¬(is_classif = false ∧ lossIsLogistic loss)) →
      ∃ msg, check_params penalty loss l1r sp is_classif =
        CheckResult.err msg) := by
  classical
  constructor
  · rintro ⟨h1, h2, h3, h4, h5⟩
    refine ⟨decide (l1r = 0 ∨ l1r = 1), ?_, by simp⟩
    unfold check_params
    rw [if_neg (not_not_intro h1), if_neg (not_not_intro h2),
        if_neg (not_not_intro h3), if_neg (not_not_intro h4),
        if_neg (fun h => h5 ⟨h.2, h.1⟩)]
  · intro hnv
    unfold check_params
    by_cases h1 : 0 ≤ l1r ∧ l1r ≤ 1
    · rw [if_neg (not_not_intro h1)]
      by_cases h2 : 0 ≤ sp ∧ sp ≤ 100
      · rw [if_neg (not_not_intro h2)]
        by_cases h3 : lowerStr penalty ∈ SUPPORTED_PENALTIES
        · rw [if_neg (not_not_intro h3)]
          by_cases h4 : lossOk loss
          · rw [if_neg (not_not_intro h4)]
            by_cases h5 : lossIsLogistic loss ∧ is_classif = false
            · rw [if_pos h5]
              exact ⟨_, rfl⟩
            · exfalso
              exact hnv ⟨h1, h2, h3, h4, fun h => h5 ⟨h.2, h.1⟩⟩
          · rw [if_pos h4]
            exact ⟨_, rfl⟩
        · rw [if_pos h3]
          exact ⟨_, rfl⟩
      · rw [if_pos h2]
        exact ⟨_, rfl⟩
    · rw [if_pos h1]
      exact ⟨_, rfl⟩

/-- Concrete witness for claim C9: a fully valid configuration with an
interior l1_ratio passes validation with no warning. -/
theorem claim_C9_check_params_witness :
    check_params "Tv-L1" (some "logistic") (1 / 2) 20 true =
      CheckResult.ok false := by
  classical
  obtain ⟨b, hb, hiff⟩ :=
    (claim_C9_check_params "Tv-L1" (some "logistic") (1 / 2) 20 true).1
      ⟨⟨by norm_num, by norm_num⟩, ⟨by norm_num, by norm_num⟩, by decide,
       by intro l hl; cases hl; decide,
       by rintro ⟨hc, -⟩; cases hc⟩
  have hbf : b = false := by
    rcases Bool.eq_false_or_eq_true b with h | h
    · exact absurd (hiff.mp h) (by norm_num)
    · exact h
  rw [hb, hbf]

/-- Claim C3 (amended): the raw alpha_max of _space_net_alpha_grid is
divided by n_samples times max(l1_ratio, 1e-3) whenever l1_ratio is zero
or at least 1e-3; for l1_ratio strictly between 0 and 1e-3 the divisor is
n_samples times l1_ratio itself (only an exact zero is replaced by
1e-3). -/
theorem claim_C3_alpha_divisor (X : List (List ℝ)) (y : List ℝ)
    (logistic : Bool) (l1r : ℝ) :
    ((l1r = 0 ∨ (1 / 1000 : ℝ) ≤ l1r) →
      computedAlphaMax X y l1r logistic =
        rawAlphaMax X y logistic /
          ((X.length : ℝ) * max l1r (1 / 1000))) ∧
    (0 < l1r → l1r < 1 / 1000 →
      computedAlphaMax X y l1r logistic =
        rawAlphaMax X y logistic / ((X.length : ℝ) * l1r)) := by
  classical
  constructor
  · rintro (h0 | hge)
    · subst h0
      rw [computedAlphaMax, if_pos rfl]
      rw [max_eq_right (by norm_num)]
    · have hne : l1r ≠ 0 := by
        intro h
        rw [h] at hge
        norm_num at hge
      rw [computedAlphaMax, if_neg hne, max_eq_left hge]
  · intro hpos hlt
    rw [computedAlphaMax, if_neg (ne_of_gt hpos)]

/-- Concrete witness for claim C3 (amended): at l1_ratio one half the
divisor is n_samples times max(l1_ratio, 1e-3). -/
theorem claim_C3_alpha_divisor_witness :
    computedAlphaMax [[1]] [1] (1 / 2) false =
      rawAlphaMax [[1]] [1] false /
        ((([[(1 : ℝ)]] : List (List ℝ)).length : ℝ) * max (1 / 2) (1 / 1000)) :=
  (claim_C3_alpha_divisor [[1]] [1] false (1 / 2)).1 (Or.inr (by norm_num))

/-- Counterexample to claim C3 as stated: at l1_ratio 1e-4 (inside
(0, 1e-3)) the code divides by n_samples times l1_ratio, giving alpha_max
10000 on a one-sample one-feature problem with raw bound 1, while the
claimed divisor n_samples times max(l1_ratio, 1e-3) would give 1000. -/
theorem claim_C3_counterexample :
    computedAlphaMax [[1]] [1] (1 / 10000) false = 10000 ∧
      rawAlphaMax [[1]] [1] false /
        ((([[(1 : ℝ)]] : List (List ℝ)).length : ℝ) *
          max (1 / 10000) (1 / 1000)) = 1000 ∧
      (10000 : ℝ) ≠ 1000 := by
  classical
  have hraw : rawAlphaMax [[1]] [1] false = 1 := by
    norm_num [rawAlphaMax, maxAbsXty, xtyL, transposeL, ncols, dotL, listMax,
      List.range_succ]
  refine ⟨?_, ?_, by norm_num⟩
  · rw [computedAlphaMax, if_neg (by norm_num), hraw]
    norm_num
  · rw [hraw]
    rw [max_eq_right (by norm_num)]
    norm_num

/-- Claim C4: with logistic true and a plus-minus-one response whose
class-balanced pseudo-residual bound max abs of X.T b is exactly zero,
_space_net_alpha_grid falls back to the squared-error bound max abs of
X.T y, and the produced grid coincides with the squared-error grid. -/
theorem claim_C4_logistic_fallback (X : List (List ℝ)) (y : List ℝ)
    (eps : ℝ) (n_alphas : ℕ) (l1r : ℝ)
    (hy : ∀ t ∈ y, t = 1 ∨ t = -1)
    (h0 : listMax ((xtyL X (pseudoResid y)).map (fun t => |t|)) = 0) :
    rawAlphaMax X y true = maxAbsXty X y ∧
      space_net_alpha_grid X y eps n_alphas l1r true =
        space_net_alpha_grid X y eps n_alphas l1r false := by
  classical
  have h1 : rawAlphaMax X y true = maxAbsXty X y := by
    rw [rawAlphaMax]
    simp only [if_true]
    rw [if_pos h0]
  have h2 : rawAlphaMax X y false = maxAbsXty X y := by
    rw [rawAlphaMax]
    simp
  refine ⟨h1, ?_⟩
  unfold space_net_alpha_grid computedAlphaMax
  rw [h1, h2]

/-- Concrete witness for claim C4: two samples of a single constant
feature with balanced labels put the response in the kernel of X.T under
the pseudo-residual weighting, and the fallback fires. -/
theorem claim_C4_logistic_fallback_witness :
    rawAlphaMax [[1], [1]] [1, -1] true = maxAbsXty [[1], [1]] [1, -1] ∧
      space_net_alpha_grid [[1], [1]] [1, -1] (1 / 2) 1 1 true =
        space_net_alpha_grid [[1], [1]] [1, -1] (1 / 2) 1 1 false := by
  classical
  refine claim_C4_logistic_fallback [[1], [1]] [1, -1] (1 / 2) 1 1 ?_ ?_
  · intro t ht
    rcases List.mem_cons.mp ht with h | h
    · exact Or.inl h
    · rcases List.mem_cons.mp h with h2 | h2
      · exact Or.inr h2
      · cases h2
  · norm_num [pseudoResid, xtyL, transposeL, ncols, dotL, listMax,
      List.range_succ]

/-- Claim C10: with standardize set, predict standardizes the incoming
matrix by that batch's own column mean and standard deviation (it applies
_standardize_X to the new data, not the stored training statistics), so
the prediction of a fixed sample changes with the other samples in the
batch: batches XA and XB share sample 0 yet predict differently on it. -/
theorem claim_C10_predict_batch_dependence :
    (∀ (m p : ℕ) (coef : Fin p → ℝ) (b : ℝ) (X : Fin m → Fin p → ℝ)
        (i : Fin m),
      predict true coef b X i =
        (∑ j, coef j * ((X i j - colMean X j) / colStd X j)) + b) ∧
    predict true (fun _ => (1 : ℝ)) 0 XA 0 ≠
      predict true (fun _ => (1 : ℝ)) 0 XB 0 := by
  constructor
  · intro m p coef b X i
    simp [predict, standardize_X]
  · have hMA : colMean XA 0 = 1 := by
      simp [colMean, XA, Fin.sum_univ_three]
      norm_num
    have hMB : colMean XB 0 = 2 := by
      simp [colMean, XB, Fin.sum_univ_three]
      norm_num
    have hSA : colStd XA 0 = Real.sqrt (2 / 3) := by
      rw [colStd, hMA]
      norm_num [XA, Fin.sum_univ_three]
    have hSB : colStd XB 0 = Real.sqrt (14 / 3) := by
      rw [colStd, hMB]
      norm_num [XB, Fin.sum_univ_three]
    have hs1 : Real.sqrt (2 / 3) < 1 := by
      rw [show (1 : ℝ) = Real.sqrt 1 from (Real.sqrt_one).symm]
      exact Real.sqrt_lt_sqrt (by norm_num) (by norm_num)
    have hs1p : 0 < Real.sqrt (2 / 3) := Real.sqrt_pos.mpr (by norm_num)
    have hs2 : 2 < Real.sqrt (14 / 3) :=
      (Real.lt_sqrt (by norm_num)).mpr (by norm_num)
    have hs2p : 0 < Real.sqrt (14 / 3) := lt_trans (by norm_num) hs2
    have hA0 : XA 0 0 = 0 := by norm_num [XA]
    have hB0 : XB 0 0 = 0 := by norm_num [XB]
    simp only [predict, if_true, standardize_X, Fin.sum_univ_one, one_mul,
      add_zero, hMA, hMB, hSA, hSB, hA0, hB0]
    have hL : ((0 : ℝ) - 1) / Real.sqrt (2 / 3) < -1 := by
      rw [div_lt_iff hs1p]
      nlinarith [hs1]
    have hR : (-1 : ℝ) < ((0 : ℝ) - 2) / Real.sqrt (14 / 3) := by
      rw [lt_div_iff hs2p]
      nlinarith [hs2]
    exact ne_of_lt (lt_trans hL hR)

/-- Unfolding of logspace as a single map over the index range. -/
theorem logspace_eq (a b : ℝ) (n : ℕ) :
    logspace a b n =
      (List.range n).map
        (fun i : ℕ => (10 : ℝ) ^ (a + (i : ℝ) * (b - a) / ((n : ℝ) - 1))) := by
  rw [logspace, linspace, List.map_map]
  rfl

/-- Structure of a reversed log-spaced grid with strictly increasing
exponent endpoints: length, positivity, strict descent, and the exact
head ten-to-the-stop. -/
theorem logspace_reverse_props (a b : ℝ) (n : ℕ) (hn : 2 ≤ n) (hab : a < b) :
    ((logspace a b n).reverse.length = n) ∧
    (∀ x ∈ (logspace a b n).reverse, 0 < x) ∧
    List.Chain' (fun u v => v < u) (logspace a b n).reverse ∧
    (logspace a b n).reverse.head? = some ((10 : ℝ) ^ b) := by
  obtain ⟨m, rfl⟩ : ∃ m, n = m + 1 := ⟨n - 1, by omega⟩
  have hm1 : 1 ≤ m := by omega
  have hden : (0 : ℝ) < ((m + 1 : ℕ) : ℝ) - 1 := by
    push_cast
    have h1 : (1 : ℝ) ≤ (m : ℝ) := by exact_mod_cast hm1
    linarith
  refine ⟨?_, ?_, ?_, ?_⟩
  · rw [logspace_eq]
    simp
  · intro x hx
    rw [List.mem_reverse, logspace_eq, List.mem_map] at hx
    obtain ⟨i, -, rfl⟩ := hx
    exact Real.rpow_pos_of_pos (by norm_num) _
  · rw [List.chain'_reverse]
    show List.Chain' (fun u v => u < v) (logspace a b (m + 1))
    rw [logspace_eq, List.chain'_map]
    refine (List.chain'_range_succ _ m).2 ?_
    intro i hi
    apply (Real.rpow_lt_rpow_left_iff (by norm_num)).2
    have hii : (i : ℝ) * (b - a) / (((m + 1 : ℕ) : ℝ) - 1) <
        ((i + 1 : ℕ) : ℝ) * (b - a) / (((m + 1 : ℕ) : ℝ) - 1) := by
      rw [div_lt_div_iff_of_pos_right hden]
      have h1 : (i : ℝ) < ((i + 1 : ℕ) : ℝ) := by
        push_cast
        linarith
      exact mul_lt_mul_of_pos_right h1 (sub_pos.mpr hab)
    linarith
  · rw [List.head?_reverse, logspace_eq, List.range_succ, List.map_append,
      List.map_cons, List.map_nil, List.getLast?_concat]
    have hexp : a + (m : ℝ) * (b - a) / (((m + 1 : ℕ) : ℝ) - 1) = b := by
      have hm : (((m + 1 : ℕ) : ℝ) - 1) = (m : ℝ) := by
        push_cast
        ring
      rw [hm]
      have hmne : (m : ℝ) ≠ 0 := by
        have h1 : (1 : ℝ) ≤ (m : ℝ) := by exact_mod_cast hm1
        linarith
      field_simp
    rw [hexp]

/-- Claim C2: whenever the computed alpha_max of _space_net_alpha_grid is
strictly positive, eps lies in (0, 1) and n_alphas is at least 1, the
returned grid has exactly n_alphas entries, every entry is strictly
positive, the entries are strictly decreasing, and the first (largest)
entry equals the computed alpha_max. -/
theorem claim_C2_alpha_grid (X : List (List ℝ)) (y : List ℝ) (eps : ℝ)
    (n_alphas : ℕ) (l1r : ℝ) (logistic : Bool)
    (hA : 0 < computedAlphaMax X y l1r logistic)
    (heps0 : 0 < eps) (heps1 : eps < 1) (hn : 1 ≤ n_alphas) :
    (space_net_alpha_grid X y eps n_alphas l1r logistic).length = n_alphas ∧
    (∀ a ∈ space_net_alpha_grid X y eps n_alphas l1r logistic, 0 < a) ∧
    List.Chain' (fun a b => b < a)
      (space_net_alpha_grid X y eps n_alphas l1r logistic) ∧
    (space_net_alpha_grid X y eps n_alphas l1r logistic).head? =
      some (computedAlphaMax X y l1r logistic) := by
  classical
  by_cases h1 : n_alphas = 1
  · subst h1
    have hg : space_net_alpha_grid X y eps 1 l1r logistic =
        [computedAlphaMax X y l1r logistic] := by
      simp [space_net_alpha_grid]
    rw [hg]
    refine ⟨rfl, ?_, by simp, rfl⟩
    intro a ha
    rw [List.mem_singleton] at ha
    rw [ha]
    exact hA
  · have hn2 : 2 ≤ n_alphas := by omega
    have hg : space_net_alpha_grid X y eps n_alphas l1r logistic =
        (logspace (Real.logb 10 (computedAlphaMax X y l1r logistic * eps))
          (Real.logb 10 (computedAlphaMax X y l1r logistic))
          n_alphas).reverse := by
      simp [space_net_alpha_grid, h1]
    have hab : Real.logb 10 (computedAlphaMax X y l1r logistic * eps) <
        Real.logb 10 (computedAlphaMax X y l1r logistic) :=
      Real.logb_lt_logb (by norm_num) (mul_pos hA heps0) (by nlinarith)
    obtain ⟨hlen, hpos, hchain, hhead⟩ :=
      logspace_reverse_props
        (Real.logb 10 (computedAlphaMax X y l1r logistic * eps))
        (Real.logb 10 (computedAlphaMax X y l1r logistic)) n_alphas hn2 hab
    rw [hg]
    refine ⟨hlen, hpos, hchain, ?_⟩
    rw [hhead, Real.rpow_logb (by norm_num) (by norm_num) hA]

/-- Concrete witness for claim C2: a one-sample one-feature problem with
unit l1_ratio has computed alpha_max 1, and the two-point grid at eps one
half satisfies all four conclusions. -/
theorem claim_C2_alpha_grid_witness :
    0 < computedAlphaMax [[1]] [1] 1 false ∧
      ((space_net_alpha_grid [[1]] [1] (1 / 2) 2 1 false).length = 2 ∧
        (∀ a ∈ space_net_alpha_grid [[1]] [1] (1 / 2) 2 1 false, 0 < a) ∧
        List.Chain' (fun a b => b < a)
          (space_net_alpha_grid [[1]] [1] (1 / 2) 2 1 false) ∧
        (space_net_alpha_grid [[1]] [1] (1 / 2) 2 1 false).head? =
          some (computedAlphaMax [[1]] [1] 1 false)) := by
  classical
  have hA : computedAlphaMax [[1]] [1] 1 false = 1 := by
    rw [computedAlphaMax, if_neg one_ne_zero]
    norm_num [rawAlphaMax, maxAbsXty, xtyL, transposeL, ncols, dotL, listMax,
      List.range_succ]
  have hApos : 0 < computedAlphaMax [[1]] [1] 1 false := by
    rw [hA]
    norm_num
  exact ⟨hApos,
    claim_C2_alpha_grid [[1]] [1] (1 / 2) 2 1 false hApos (by norm_num)
      (by norm_num) (by norm_num)⟩

/-- A left fold by min is bounded by its initial accumulator. -/
theorem foldl_min_le_init : ∀ (t : List ℕ) (a : ℕ), t.foldl min a ≤ a := by
  intro t
  induction t with
  | nil =>
    intro a
    simp
  | cons b t ih =>
    intro a
    rw [List.foldl_cons]
    exact le_trans (ih (min a b)) (min_le_left a b)

/-- A left fold by min is bounded by every list element. -/
theorem foldl_min_le_mem :
    ∀ (t : List ℕ) (a x : ℕ), x ∈ t → t.foldl min a ≤ x := by
  intro t
  induction t with
  | nil =>
    intro a x hx
    cases hx
  | cons b t ih =>
    intro a x hx
    rw [List.foldl_cons]
    rcases List.mem_cons.mp hx with h | h
    · subst h
      exact le_trans (foldl_min_le_init t (min a x)) (min_le_right a x)
    · exact ih (min a b) x h

/-- The numpy-style list minimum is a lower bound for every element. -/
theorem natListMin_le {l : List ℕ} {x : ℕ} (hx : x ∈ l) : natListMin l ≤ x := by
  cases l with
  | nil => cases hx
  | cons a t =>
    rcases List.mem_cons.mp hx with h | h
    · subst h
      exact foldl_min_le_init t x
    · exact foldl_min_le_mem t a x h

/-- A left fold by max dominates its initial accumulator. -/
theorem le_foldl_max_init : ∀ (t : List ℕ) (a : ℕ), a ≤ t.foldl max a := by
  intro t
  induction t with
  | nil =>
    intro a
    simp
  | cons b t ih =>
    intro a
    rw [List.foldl_cons]
    exact le_trans (le_max_left a b) (ih (max a b))

/-- A left fold by max dominates every list element. -/
theorem le_foldl_max_mem :
    ∀ (t : List ℕ) (a x : ℕ), x ∈ t → x ≤ t.foldl max a := by
  intro t
  induction t with
  | nil =>
    intro a x hx
    cases hx
  | cons b t ih =>
    intro a x hx
    rw [List.foldl_cons]
    rcases List.mem_cons.mp hx with h | h
    · subst h
      exact le_trans (le_max_right a x) (le_foldl_max_init t (max a x))
    · exact ih (max a b) x h

/-- The numpy-style list maximum is an upper bound for every element. -/
theorem le_natListMax {l : List ℕ} {x : ℕ} (hx : x ∈ l) : x ≤ natListMax l := by
  cases l with
  | nil => cases hx
  | cons a t =>
    rcases List.mem_cons.mp hx with h | h
    · subst h
      exact le_foldl_max_init t x
    · exact le_foldl_max_mem t a x h

/-- The numpy-style list maximum of a nonempty list of bounded naturals
is bounded. -/
theorem natListMax_lt {l : List ℕ} {n : ℕ} (hne : l ≠ [])
    (h : ∀ x ∈ l, x < n) : natListMax l < n := by
  cases l with
  | nil => exact absurd rfl hne
  | cons a t =>
    have key : ∀ (t2 : List ℕ) (a2 : ℕ), a2 < n → (∀ x ∈ t2, x < n) →
        t2.foldl max a2 < n := by
      intro t2
      induction t2 with
      | nil =>
        intro a2 ha2 _
        exact ha2
      | cons b t2 ih =>
        intro a2 ha2 ht2
        rw [List.foldl_cons]
        exact ih (max a2 b) (max_lt ha2 (ht2 b (by simp)))
          (fun x hx => ht2 x (by simp [hx]))
    exact key t a (h a (by simp)) (fun x hx => h x (by simp [hx]))

/-- An active voxel contributes its first coordinate to idx1. -/
theorem mem_idx1 (m : Mask3) {i j k : ℕ} (hi : i < m.n1) (hj : j < m.n2)
    (hk : k < m.n3) (hf : m.f i j k = true) : i ∈ m.idx1 := by
  rw [Mask3.idx1, List.mem_filter]
  refine ⟨List.mem_range.mpr hi, ?_⟩
  rw [List.any_eq_true]
  refine ⟨j, List.mem_range.mpr hj, ?_⟩
  rw [List.any_eq_true]
  exact ⟨k, List.mem_range.mpr hk, hf⟩

/-- An active voxel contributes its second coordinate to idx2. -/
theorem mem_idx2 (m : Mask3) {i j k : ℕ} (hi : i < m.n1) (hj : j < m.n2)
    (hk : k < m.n3) (hf : m.f i j k = true) : j ∈ m.idx2 := by
  rw [Mask3.idx2, List.mem_filter]
  refine ⟨List.mem_range.mpr hj, ?_⟩
  rw [List.any_eq_true]
  refine ⟨i, List.mem_range.mpr hi, ?_⟩
  rw [List.any_eq_true]
  exact ⟨k, List.mem_range.mpr hk, hf⟩

/-- An active voxel contributes its third coordinate to idx3. -/
theorem mem_idx3 (m : Mask3) {i j k : ℕ} (hi : i < m.n1) (hj : j < m.n2)
    (hk : k < m.n3) (hf : m.f i j k = true) : k ∈ m.idx3 := by
  rw [Mask3.idx3, List.mem_filter]
  refine ⟨List.mem_range.mpr hk, ?_⟩
  rw [List.any_eq_true]
  refine ⟨i, List.mem_range.mpr hi, ?_⟩
  rw [List.any_eq_true]
  exact ⟨j, List.mem_range.mpr hj, hf⟩

/-- Every element of idx1 is below the first dimension. -/
theorem idx1_lt (m : Mask3) {x : ℕ} (hx : x ∈ m.idx1) : x < m.n1 := by
  rw [Mask3.idx1, List.mem_filter] at hx
  exact List.mem_range.mp hx.1

/-- Every element of idx2 is below the second dimension. -/
theorem idx2_lt (m : Mask3) {x : ℕ} (hx : x ∈ m.idx2) : x < m.n2 := by
  rw [Mask3.idx2, List.mem_filter] at hx
  exact List.mem_range.mp hx.1

/-- Every element of idx3 is below the third dimension. -/
theorem idx3_lt (m : Mask3) {x : ℕ} (hx : x ∈ m.idx3) : x < m.n3 := by
  rw [Mask3.idx3, List.mem_filter] at hx
  exact List.mem_range.mp hx.1

/-- Claim C8: the screened mask produced inside path_scores (erosion then
dilation, re-intersected with the original mask) only keeps voxels active
in the original mask; the cropped mask produced by _crop_mask only
contains voxels active in the mask it derives from (under the bounding
box coordinate shift), and it additionally preserves every originally
active voxel (same support in a tighter box). -/
theorem claim_C8_mask_containment :
    (∀ (m : Mask3) (supp : ℕ → ℕ → ℕ → Bool) (i j k : ℕ),
      (screened_mask m supp).activeB i j k = true → m.activeB i j k = true) ∧
    (∀ (m : Mask3) (i0 j0 k0 : ℕ), m.activeB i0 j0 k0 = true →
      ∀ x y z : ℕ, (crop_mask m).activeB x y z = true →
        m.activeB (x + (natListMin m.idx1 - 1)) (y + (natListMin m.idx2 - 1))
          (z + (natListMin m.idx3 - 1)) = true) ∧
    (∀ (m : Mask3) (i j k : ℕ), m.activeB i j k = true →
      (crop_mask m).activeB (i - (natListMin m.idx1 - 1))
        (j - (natListMin m.idx2 - 1)) (k - (natListMin m.idx3 - 1)) = true) := by
  refine ⟨?_, ?_, ?_⟩
  · intro m supp i j k h
    simp only [Mask3.activeB, Mask3.inBounds, screened_mask, Bool.and_eq_true,
      decide_eq_true_eq] at h ⊢
    exact ⟨h.1, h.2.2⟩
  · intro m i0 j0 k0 h0 x y z hx
    simp only [Mask3.activeB, Mask3.inBounds, Bool.and_eq_true,
      decide_eq_true_eq] at h0
    obtain ⟨⟨⟨hi0, hj0⟩, hk0⟩, hf0⟩ := h0
    have hmem1 := mem_idx1 m hi0 hj0 hk0 hf0
    have hmem2 := mem_idx2 m hi0 hj0 hk0 hf0
    have hmem3 := mem_idx3 m hi0 hj0 hk0 hf0
    simp only [Mask3.activeB, Mask3.inBounds, crop_mask, Bool.and_eq_true,
      decide_eq_true_eq] at hx ⊢
    obtain ⟨⟨⟨hxb, hyb⟩, hzb⟩, hxf⟩ := hx
    have hmax1 : natListMax m.idx1 < m.n1 :=
      natListMax_lt (List.ne_nil_of_mem hmem1) (fun t ht => idx1_lt m ht)
    have hmax2 : natListMax m.idx2 < m.n2 :=
      natListMax_lt (List.ne_nil_of_mem hmem2) (fun t ht => idx2_lt m ht)
    have hmax3 : natListMax m.idx3 < m.n3 :=
      natListMax_lt (List.ne_nil_of_mem hmem3) (fun t ht => idx3_lt m ht)
    refine ⟨⟨⟨by omega, by omega⟩, by omega⟩, hxf⟩
  · intro m i j k h
    simp only [Mask3.activeB, Mask3.inBounds, Bool.and_eq_true,
      decide_eq_true_eq] at h
    obtain ⟨⟨⟨hi, hj⟩, hk⟩, hf⟩ := h
    have hmem1 := mem_idx1 m hi hj hk hf
    have hmem2 := mem_idx2 m hi hj hk hf
    have hmem3 := mem_idx3 m hi hj hk hf
    have hmin1 := natListMin_le hmem1
    have hmin2 := natListMin_le hmem2
    have hmin3 := natListMin_le hmem3
    have hmax1 := le_natListMax hmem1
    have hmax2 := le_natListMax hmem2
    have hmax3 := le_natListMax hmem3
    simp only [Mask3.activeB, Mask3.inBounds, crop_mask, Bool.and_eq_true,
      decide_eq_true_eq]
    have he1 : i - (natListMin m.idx1 - 1) + (natListMin m.idx1 - 1) = i := by
      omega
    have he2 : j - (natListMin m.idx2 - 1) + (natListMin m.idx2 - 1) = j := by
      omega
    have he3 : k - (natListMin m.idx3 - 1) + (natListMin m.idx3 - 1) = k := by
      omega
    refine ⟨⟨⟨by omega, by omega⟩, by omega⟩, ?_⟩
    rw [he1, he2, he3]
    exact hf

/-- Concrete witness for claim C8: the screening containment on the full
3x3x3 mask at voxel (1,1,1), and both cropping facts on a 2x2x2 mask
with single active voxel (1,1,1). -/
theorem claim_C8_mask_containment_witness :
    mask3All.activeB 1 1 1 = true ∧
    mask3One.activeB (1 + (natListMin mask3One.idx1 - 1))
      (1 + (natListMin mask3One.idx2 - 1))
      (1 + (natListMin mask3One.idx3 - 1)) = true ∧
    (crop_mask mask3One).activeB (1 - (natListMin mask3One.idx1 - 1))
      (1 - (natListMin mask3One.idx2 - 1))
      (1 - (natListMin mask3One.idx3 - 1)) = true :=
  ⟨claim_C8_mask_containment.1 mask3All (fun _ _ _ => true) 1 1 1 (by decide),
   claim_C8_mask_containment.2.1 mask3One 1 1 1 (by decide) 1 1 1 (by decide),
   claim_C8_mask_containment.2.2 mask3One 1 1 1 (by decide)⟩

/-- The state component of one callback call: the counter is incremented
and the score appended (the counter-zero reset never fires since the
incremented counter is positive). -/
theorem escCall_fst (st : ESCState) (s : ℝ) :
    (escCall st s).1 = ⟨st.counter + 1, st.test_scores ++ [s]⟩ := by
  rw [escCall]
  simp only [Nat.succ_ne_zero, if_false]
  split_ifs <;> rfl

/-- The state threaded through a callback run from any starting
accumulator: counter advanced by the number of calls, scores appended in
order. -/
theorem foldl_esc_state :
    ∀ (ss : List ℝ) (acc : ESCState × Option Bool),
      (ss.foldl (fun p s => escCall p.1 s) acc).1 =
        ⟨acc.1.counter + ss.length, acc.1.test_scores ++ ss⟩ := by
  intro ss
  induction ss with
  | nil =>
    intro acc
    simp
  | cons a t ih =>
    intro acc
    rw [List.foldl_cons, ih (escCall acc.1 a), escCall_fst]
    refine congrArg₂ ESCState.mk ?_ ?_
    · simp only [List.length_cons]
      omega
    · simp

/-- A callback run over a nonempty sequence is the last call applied to
the accumulated state. -/
theorem escRun_concat (ss0 : List ℝ) (s : ℝ) :
    escRun (ss0 ++ [s]) = escCall ⟨ss0.length, ss0⟩ s := by
  rw [escRun, List.foldl_append, List.foldl_cons, List.foldl_nil]
  have hst := foldl_esc_state ss0 ((⟨0, []⟩ : ESCState), (none : Option Bool))
  rw [hst]
  simp

/-- Claim C5 (amended): over any nonempty sequence of recorded scores,
the callback may request a stop only at calls whose counter exceeds 20
and is congruent to 2 modulo 10, and at such a call it stops exactly when
at least 5 scores are recorded and the mean first difference of the last
five recorded scores taken in reverse chronological order (the code
reverses the window before differencing) is at least -1e-4; every other
call returns no stop signal. -/
theorem claim_C5_early_stopping (ss : List ℝ) (hne : ss ≠ []) :
    (¬(20 < ss.length ∧ ss.length % 10 = 2) → (escRun ss).2 ≠ some true) ∧
    ((20 < ss.length ∧ ss.length % 10 = 2) →
      ((escRun ss).2 = some true ↔
        (5 ≤ ss.length ∧ -(1 / 10000 : ℝ) ≤
          npMean (diffs ((ss.drop (ss.length - 5)).reverse))))) := by
  classical
  rcases List.eq_nil_or_concat ss with h | ⟨ss0, s, rfl⟩
  · exact absurd h hne
  simp only [List.concat_eq_append]
  have hlen : (ss0 ++ [s]).length = ss0.length + 1 := by simp
  rw [escRun_concat, hlen]
  rw [escCall]
  simp only [Nat.succ_ne_zero, if_false]
  by_cases hck : 20 < ss0.length + 1 ∧ (ss0.length + 1) % 10 = 2
  · rw [if_neg (not_not_intro hck)]
    constructor
    · intro hnck
      exact absurd hck hnck
    · intro _
      have h4 : 4 < (ss0 ++ [s]).length := by
        rw [hlen]
        omega
      by_cases hc : -(1 / 10000 : ℝ) ≤
          npMean (diffs ((((ss0 ++ [s]).drop ((ss0 ++ [s]).length - 5))).reverse))
      · rw [if_pos ⟨h4, by rw [hlen] at hc ⊢; exact hc⟩]
        simp only [true_iff]
        refine ⟨by omega, ?_⟩
        rw [hlen] at hc
        exact hc
      · rw [if_neg ?hcond]
        case hcond =>
          rintro ⟨-, hmean⟩
          exact hc (by rw [hlen] at hmean ⊢; exact hmean)
        constructor
        · intro h
          cases h
        · rintro ⟨-, hmean⟩
          exact absurd (by rw [hlen]; exact hmean) hc
  · rw [if_pos hck]
    refine ⟨fun _ => by simp, fun h => absurd h hck⟩

/-- Concrete witness for claim C5 (amended): on twenty-two flat scores
the twenty-second call is a checkpoint and the stop signal fires. -/
theorem claim_C5_early_stopping_witness :
    (escRun flatScores).2 = some true := by
  have h := (claim_C5_early_stopping flatScores (by simp [flatScores])).2
  have hck : 20 < flatScores.length ∧ flatScores.length % 10 = 2 := by
    constructor <;> norm_num [flatScores]
  refine (h hck).mpr ⟨by norm_num [flatScores], ?_⟩
  norm_num [flatScores, npMean, diffs]

/-- Counterexample to claim C5 as stated: at the checkpoint call 22 with
seventeen flat scores followed by five steeply rising ones, the mean
first difference of the last five recorded scores (in chronological
order, as the claim reads) is 1, far above -1e-4, so the claim predicts a
stop, yet the callback returns False because the code differences the
reversed window, whose mean first difference is -1. -/
theorem claim_C5_counterexample :
    (20 < cexScores.length ∧ cexScores.length % 10 = 2) ∧
    5 ≤ cexScores.length ∧
    -(1 / 10000 : ℝ) ≤
      npMean (diffs (cexScores.drop (cexScores.length - 5))) ∧
    (escRun cexScores).2 = some false := by
  classical
  refine ⟨⟨by norm_num [cexScores], by norm_num [cexScores]⟩,
    by norm_num [cexScores], ?_, ?_⟩
  · norm_num [cexScores, npMean, diffs]
  · have hsplit : cexScores =
        ([0, 0, 0, 0, 0, 0, 0, 0, 0, 0, 0, 0, 0, 0, 0, 0, 0, 1, 2, 3,
          4] : List ℝ) ++ [5] := by
      norm_num [cexScores]
    rw [hsplit, escRun_concat]
    rw [escCall]
    simp only [Nat.succ_ne_zero, if_false]
    rw [if_neg (not_not_intro (by norm_num))]
    rw [if_neg ?hc]
    case hc =>
      rintro ⟨-, hmean⟩
      norm_num [npMean, diffs] at hmean

/-- A max-fold over a constant list returns the constant. -/
theorem foldl_max_const (c : ℝ) :
    ∀ (t : List ℝ), (∀ x ∈ t, x = c) → t.foldl max c = c := by
  intro t
  induction t with
  | nil =>
    intro _
    rfl
  | cons a t ih =>
    intro h
    rw [List.foldl_cons, h a (by simp), max_self]
    exact ih (fun x hx => h x (by simp [hx]))

/-- A min-fold over a constant list returns the constant. -/
theorem foldl_min_const (c : ℝ) :
    ∀ (t : List ℝ), (∀ x ∈ t, x = c) → t.foldl min c = c := by
  intro t
  induction t with
  | nil =>
    intro _
    rfl
  | cons a t ih =>
    intro h
    rw [List.foldl_cons, h a (by simp), min_self]
    exact ih (fun x hx => h x (by simp [hx]))

/-- The numpy max of a nonempty constant list is the constant. -/
theorem listMax_const {l : List ℝ} {c : ℝ} (hne : l ≠ [])
    (h : ∀ x ∈ l, x = c) : listMax l = c := by
  cases l with
  | nil => exact absurd rfl hne
  | cons a t =>
    rw [listMax, h a (by simp)]
    exact foldl_max_const c t (fun x hx => h x (by simp [hx]))

/-- The numpy min of a nonempty constant list is the constant. -/
theorem listMin_const {l : List ℝ} {c : ℝ} (hne : l ≠ [])
    (h : ∀ x ∈ l, x = c) : listMin l = c := by
  cases l with
  | nil => exact absurd rfl hne
  | cons a t =>
    rw [listMin, h a (by simp)]
    exact foldl_min_const c t (fun x hx => h x (by simp [hx]))

/-- Claim C6: a weight vector whose coefficients (after dropping the
intercept in the classification case) are constant has zero peak-to-peak
range, so test_score returns the minus-infinity sentinel for both scores;
and the selection step of the path_scores scoring loop changes best_alpha
only when the primary score of the current alpha is finite, so a
minus-infinity score is never recorded as best_alpha by the update. -/
theorem claim_C6_constant_score_selection :
    (∀ (is_classif : Bool) (X_test : List (List ℝ)) (y_test : List ℝ)
        (w : List ℝ) (c : ℝ),
      (if is_classif then w.dropLast else w) ≠ [] →
      (∀ x ∈ (if is_classif then w.dropLast else w), x = c) →
      test_score is_classif X_test y_test w = (⊥, ⊥)) ∧
    (∀ (solver : SolverT) (Xc : List (List ℝ)) (yc : List ℝ) (mask : Mask3)
        (is_classif : Bool) (X_test : List (List ℝ)) (y_test : List ℝ)
        (st : SelState) (alpha : ℝ),
      (path_step solver Xc yc mask is_classif X_test y_test st
          alpha).best_alpha ≠ st.best_alpha →
      (test_score is_classif X_test y_test
          (solver Xc yc alpha mask st.init true).1).1 ≠ ⊥ ∧
      (test_score is_classif X_test y_test
          (solver Xc yc alpha mask st.init true).1).1 ≠ ⊤) := by
  classical
  constructor
  · intro is_classif X_test y_test w c hne h
    have hptp : ptpL (if is_classif then w.dropLast else w) = 0 := by
      rw [ptpL, listMax_const hne h, listMin_const hne h, sub_self]
    rw [test_score, if_pos hptp]
  · intro solver Xc yc mask is_classif X_test y_test st alpha hupd
    rw [path_step] at hupd
    by_cases hcond :
        ((test_score is_classif X_test y_test
            (solver Xc yc alpha mask st.init true).1).1 ≠ ⊥ ∧
          (test_score is_classif X_test y_test
            (solver Xc yc alpha mask st.init true).1).1 ≠ ⊤) ∧
        (st.best_score <
            (test_score is_classif X_test y_test
              (solver Xc yc alpha mask st.init true).1).1 ∨
          ((test_score is_classif X_test y_test
              (solver Xc yc alpha mask st.init true).1).1 = st.best_score ∧
            st.best_secundary_score <
              (test_score is_classif X_test y_test
                (solver Xc yc alpha mask st.init true).1).2))
    · exact hcond.1
    · rw [if_neg hcond] at hupd
      exact absurd rfl hupd

/-- Concrete witness for claim C6: the constant weight vector [2, 2]
scores minus infinity, and a selection-step instance whose (finite,
correlation-valued) score updates best_alpha indeed has a score distinct
from minus infinity. -/
theorem claim_C6_constant_score_selection_witness :
    test_score false [[1], [1]] [0, 0] [2, 2] = (⊥, ⊥) ∧
    (test_score false [[1], [1]] [0, 0] ([1, 0] : List ℝ)).1 ≠ ⊥ := by
  classical
  constructor
  · refine claim_C6_constant_score_selection.1 false [[1], [1]] [0, 0]
      [2, 2] 2 (by simp) ?_
    intro x hx
    simp only [Bool.false_eq_true, if_false] at hx
    rcases List.mem_cons.mp hx with h | h
    · exact h
    · rcases List.mem_cons.mp h with h2 | h2
      · exact h2
      · cases h2
  · have hptp : ptpL [1, 0] ≠ 0 := by
      norm_num [ptpL, listMax, listMin]
    have hw2 : (if (false : Bool) = true then List.dropLast [1, 0]
        else ([1, 0] : List ℝ)) = ([1, 0] : List ℝ) := by simp
    have hts : (test_score false [[1], [1]] [0, 0] ([1, 0] : List ℝ)).1 =
        ((pearsonr (List.map (fun row => dotL row [1, 0]) [[1], [1]])
          [0, 0] : ℝ) : EReal) := by
      rw [test_score, hw2, if_neg hptp]
      simp
    have hupd : (path_step (fun _ _ _ _ i _ => (([1, 0] : List ℝ), i))
        [[1]] [0] mask3One false [[1], [1]] [0, 0]
        ⟨⊥, ⊥, 0, none, none, []⟩ 1).best_alpha ≠
        (⟨⊥, ⊥, 0, none, none, []⟩ : SelState).best_alpha := by
      simp only [path_step]
      rw [hts]
      rw [if_pos ⟨⟨EReal.coe_ne_bot _, EReal.coe_ne_top _⟩,
        Or.inl (EReal.bot_lt_coe _)⟩]
      norm_num
    have h2 := claim_C6_constant_score_selection.2
      (fun _ _ _ _ i _ => (([1, 0] : List ℝ), i)) [[1]] [0] mask3One false
      [[1], [1]] [0, 0] ⟨⊥, ⊥, 0, none, none, []⟩ 1 hupd
    exact h2.1

/-- Scattering into a boolean support always produces a vector of the
support's length. -/
theorem scatterW_length (s : List Bool) : ∀ v, (scatterW s v).length = s.length := by
  induction s with
  | nil =>
    intro v
    rfl
  | cons b t ih =>
    intro v
    cases b
    · simp [scatterW, ih]
    · simp [scatterW, ih]

/-- The intercept-recovery step appends exactly when the weight length
matches the feature count. -/
theorem add_intercept_length (n : ℕ) (X2 : Option (List ℝ)) (ym : ℝ)
    (w : List ℝ) :
    (add_intercept n X2 ym w).length = if w.length = n then n + 1 else w.length := by
  classical
  rw [add_intercept]
  by_cases h : w.length = n
  · rw [if_pos h, if_pos h]
    simp [h]
  · rw [if_neg h, if_neg h]

/-- Centering preserves the column count of a nonempty design matrix. -/
theorem ncols_center (X0 : List (List ℝ)) (y0 : List ℝ) (hne : X0 ≠ []) :
    ncols ((center_data X0 y0).1) = ncols X0 := by
  cases X0 with
  | nil => exact absurd rfl hne
  | cons r t =>
    simp [center_data, ncols, transposeL]

/-- Row selection at a valid head index preserves the column count of a
rectangular matrix. -/
theorem ncols_selRows (X1 : List (List ℝ)) (i0 : ℕ) (tr : List ℕ)
    (hrect : ∀ row ∈ X1, row.length = ncols X1) (hi0 : i0 < X1.length) :
    ncols (selRows X1 (i0 :: tr)) = ncols X1 := by
  simp only [selRows, List.map_cons, ncols, List.headD_cons]
  have hmem : X1.getD i0 [] ∈ X1 := by
    rw [List.getD_eq_getElem X1 [] hi0]
    exact List.getElem_mem hi0
  exact hrect _ hmem

/-- Claim C7 (amended): a path_scores call with an empty test index set
and debias off performs no per-alpha scoring (the returned test_scores
list is exactly the singleton NaN sentinel), returns as best_alpha the
first (largest) element of the descending alpha grid, and returns the
weight vector of a single full-precision solve at that alpha, with the
recovered intercept appended, of full length n_features + 1. (With debias
on, the code instead crashes on the never-created early_stopper.) -/
theorem claim_C7_empty_test_single_solve (solver : SolverT) (screen : ScreenT)
    (X : List (List ℝ)) (y : List ℝ) (mask : Mask3) (A : List ℝ) (l1r : ℝ)
    (train : List ℕ) (n_alphas : ℕ) (eps : ℝ) (is_classif : Bool)
    (init : Option (List ℝ)) (Xmean2 : Option (List ℝ)) (ymean : ℝ) (sp : ℝ)
    (a0 : ℝ) (rest : List ℝ)
    (hsort : sortDesc A = a0 :: rest)
    (hsolver : ∀ X2 y2 a m i b, ((solver X2 y2 a m i b).1).length =
      ncols X2 + (if is_classif then 1 else 0))
    (hsupp : ((screen X y mask).2.2).length = ncols X)
    (hrect : ∀ row ∈ ps_X1 screen X y mask sp,
      row.length = ncols (ps_X1 screen X y mask sp))
    (htr : train ≠ []) (htrlt : ∀ i ∈ train, i < (ps_X1 screen X y mask sp).length) :
    path_scores solver screen X y mask (some A) l1r train [] n_alphas eps
        is_classif init false Xmean2 ymean sp =
      Except.ok ([none],
        add_intercept (ncols X) Xmean2 ymean
          (unscreen_w (ps_doScr X sp) is_classif ((screen X y mask).2.2)
            (solver
              ((center_data (selRows (ps_X1 screen X y mask sp) train)
                (selY y train)).1)
              ((center_data (selRows (ps_X1 screen X y mask sp) train)
                (selY y train)).2.1)
              a0 (ps_mask2 screen X y mask sp) init false).1),
        a0) ∧
      (add_intercept (ncols X) Xmean2 ymean
        (unscreen_w (ps_doScr X sp) is_classif ((screen X y mask).2.2)
          (solver
            ((center_data (selRows (ps_X1 screen X y mask sp) train)
              (selY y train)).1)
            ((center_data (selRows (ps_X1 screen X y mask sp) train)
              (selY y train)).2.1)
            a0 (ps_mask2 screen X y mask sp) init false).1)).length =
        ncols X + 1 := by
  classical
  constructor
  · simp only [path_scores]
    rw [hsort]
    simp
  · set S := (screen X y mask).2.2 with hS
    set bw := (solver
      ((center_data (selRows (ps_X1 screen X y mask sp) train)
        (selY y train)).1)
      ((center_data (selRows (ps_X1 screen X y mask sp) train)
        (selY y train)).2.1)
      a0 (ps_mask2 screen X y mask sp) init false).1 with hbw
    by_cases hscr : ps_doScr X sp = true
    · rw [hscr]
      cases is_classif with
      | false =>
        have h2 : (unscreen_w true false S bw).length = ncols X := by
          simp [unscreen_w, scatterW_length, ← hS, hsupp]
        rw [add_intercept_length, h2, if_pos rfl]
      | true =>
        have h2 : (unscreen_w true true S bw).length = ncols X + 1 := by
          simp [unscreen_w, scatterW_length, ← hS, hsupp]
        rw [add_intercept_length, h2, if_neg (by omega)]
    · have hscrf : ps_doScr X sp = false := by
        rcases Bool.eq_false_or_eq_true (ps_doScr X sp) with h | h
        · exact absurd h hscr
        · exact h
      rw [hscrf]
      have hX1 : ps_X1 screen X y mask sp = X := by
        rw [ps_X1, hscrf]
        simp
      obtain ⟨i0, tr, rfl⟩ : ∃ i0 tr, train = i0 :: tr := by
        cases train with
        | nil => exact absurd rfl htr
        | cons i0 tr => exact ⟨i0, tr, rfl⟩
      have hi0 : i0 < (ps_X1 screen X y mask sp).length :=
        htrlt i0 (by simp)
      have hncXc :
          ncols ((center_data (selRows (ps_X1 screen X y mask sp) (i0 :: tr))
            (selY y (i0 :: tr))).1) = ncols X := by
        rw [ncols_center _ _ (by simp [selRows])]
        rw [ncols_selRows (ps_X1 screen X y mask sp) i0 tr hrect hi0]
        rw [hX1]
      have hbwlen : bw.length = ncols X + (if is_classif then 1 else 0) := by
        rw [hbw, hsolver, hncXc]
      have hunscr : unscreen_w false is_classif S bw = bw := by
        simp [unscreen_w]
      rw [hunscr]
      cases is_classif with
      | false =>
        norm_num at hbwlen
        rw [add_intercept_length, hbwlen, if_pos rfl]
      | true =>
        norm_num at hbwlen
        rw [add_intercept_length, hbwlen, if_neg (by omega)]

/-- Concrete witness for claim C7 (amended): a two-sample one-feature
regression call with an empty test set, a two-point alpha grid and a
replicate-zero solver returns the NaN sentinel singleton, the largest
alpha, and an intercept-extended weight vector of full length. -/
theorem claim_C7_empty_test_single_solve_witness :
    path_scores (fun X2 _ _ _ i _ => (List.replicate (ncols X2) 0, i))
        (fun X2 _ _ => (X2, mask3One, List.replicate (ncols X2) true))
        [[1], [2]] [1, 2] mask3One (some [5, 3]) (1 / 2) [0, 1] [] 10
        (1 / 1000) false none false none 0 100 =
      Except.ok ([none],
        add_intercept (ncols [[(1 : ℝ)], [2]]) none 0
          (unscreen_w (ps_doScr [[(1 : ℝ)], [2]] 100) false
            ((fun (X2 : List (List ℝ)) (_ : List ℝ) (_ : Mask3) =>
              (X2, mask3One, List.replicate (ncols X2) true)) [[1], [2]] [1, 2]
                mask3One).2.2
            ((fun (X2 : List (List ℝ)) (_ : List ℝ) (_ : ℝ) (_ : Mask3)
                (i : Option (List ℝ)) (_ : Bool) =>
                (List.replicate (ncols X2) (0 : ℝ), i))
              ((center_data
                (selRows (ps_X1
                  (fun X2 _ _ => (X2, mask3One, List.replicate (ncols X2) true))
                  [[1], [2]] [1, 2] mask3One 100) [0, 1])
                (selY [1, 2] [0, 1])).1)
              ((center_data
                (selRows (ps_X1
                  (fun X2 _ _ => (X2, mask3One, List.replicate (ncols X2) true))
                  [[1], [2]] [1, 2] mask3One 100) [0, 1])
                (selY [1, 2] [0, 1])).2.1)
              5 (ps_mask2
                (fun X2 _ _ => (X2, mask3One, List.replicate (ncols X2) true))
                [[1], [2]] [1, 2] mask3One 100) none false).1),
        5) ∧
      (add_intercept (ncols [[(1 : ℝ)], [2]]) none 0
        (unscreen_w (ps_doScr [[(1 : ℝ)], [2]] 100) false
          ((fun (X2 : List (List ℝ)) (_ : List ℝ) (_ : Mask3) =>
            (X2, mask3One, List.replicate (ncols X2) true)) [[1], [2]] [1, 2]
              mask3One).2.2
          ((fun (X2 : List (List ℝ)) (_ : List ℝ) (_ : ℝ) (_ : Mask3)
              (i : Option (List ℝ)) (_ : Bool) =>
              (List.replicate (ncols X2) (0 : ℝ), i))
            ((center_data
              (selRows (ps_X1
                (fun X2 _ _ => (X2, mask3One, List.replicate (ncols X2) true))
                [[1], [2]] [1, 2] mask3One 100) [0, 1])
              (selY [1, 2] [0, 1])).1)
            ((center_data
              (selRows (ps_X1
                (fun X2 _ _ => (X2, mask3One, List.replicate (ncols X2) true))
                [[1], [2]] [1, 2] mask3One 100) [0, 1])
              (selY [1, 2] [0, 1])).2.1)
            5 (ps_mask2
              (fun X2 _ _ => (X2, mask3One, List.replicate (ncols X2) true))
              [[1], [2]] [1, 2] mask3One 100) none false).1)).length =
        ncols [[(1 : ℝ)], [2]] + 1 := by
  classical
  refine claim_C7_empty_test_single_solve
    (fun X2 _ _ _ i _ => (List.replicate (ncols X2) 0, i))
    (fun X2 _ _ => (X2, mask3One, List.replicate (ncols X2) true))
    [[1], [2]] [1, 2] mask3One [5, 3] (1 / 2) [0, 1] 10 (1 / 1000) false
    none none 0 100 5 [3] ?_ ?_ ?_ ?_ ?_ ?_
  · norm_num [sortDesc, List.insertionSort, List.orderedInsert]
  · intro X2 y2 a m i b
    simp
  · simp
  · have hX1 : ps_X1
        (fun X2 _ _ => (X2, mask3One, List.replicate (ncols X2) true))
        [[1], [2]] [1, 2] mask3One 100 = [[1], [2]] := by
      rw [ps_X1]
      rw [if_neg ?_]
      simp only [ps_doScr, ncols]
      norm_num
    rw [hX1]
    intro row hrow
    rcases List.mem_cons.mp hrow with h | h
    · rw [h]
      rfl
    · rcases List.mem_cons.mp h with h2 | h2
      · rw [h2]
        rfl
      · cases h2
  · simp
  · have hX1 : ps_X1
        (fun X2 _ _ => (X2, mask3One, List.replicate (ncols X2) true))
        [[1], [2]] [1, 2] mask3One 100 = [[1], [2]] := by
      rw [ps_X1]
      rw [if_neg ?_]
      simp only [ps_doScr, ncols]
      norm_num
    rw [hX1]
    intro i hi
    rcases List.mem_cons.mp hi with h | h
    · rw [h]
      norm_num
    · rcases List.mem_cons.mp h with h2 | h2
      · rw [h2]
        norm_num
      · cases h2

/-- Counterexample to claim C7 as stated: with debias requested and an
empty test set, path_scores does not return the sentinel triple at all;
it crashes with a NameError because early_stopper is only ever created
inside the (skipped) scoring loop. -/
theorem claim_C7_counterexample :
    path_scores (fun _ _ _ _ i _ => (([0] : List ℝ), i))
        (fun X2 _ _ => (X2, mask3One, [])) [[1], [2]] [1, 2] mask3One
        (some [1]) (1 / 2) [0, 1] [] 10 (1 / 1000) false none true none 0
        100 =
      Except.error "NameError: early_stopper is not defined" := by
  classical
  have hs : sortDesc [(1 : ℝ)] = [1] := by
    norm_num [sortDesc, List.insertionSort, List.orderedInsert]
  simp only [path_scores]
  rw [hs]
  simp

/-- Pointwise application of array addition. -/
theorem ndApply_add {n : ℕ} {s : List ℕ} (u v : NDArray (n :: s)) (i : Fin n) :
    (u + v) i = u i + v i := rfl

/-- Pointwise application of array subtraction. -/
theorem ndApply_sub {n : ℕ} {s : List ℕ} (u v : NDArray (n :: s)) (i : Fin n) :
    (u - v) i = u i - v i := rfl

/-- Pointwise application of the zero array. -/
theorem ndApply_zero {n : ℕ} {s : List ℕ} (i : Fin n) :
    (0 : NDArray (n :: s)) i = 0 := rfl

/-- Pointwise application of scalar multiplication. -/
theorem ndApply_smul {n : ℕ} {s : List ℕ} (r : ℝ) (u : NDArray (n :: s))
    (i : Fin n) : (r • u) i = r • u i := rfl

/-- Real scalar action on a zero-dimensional array is multiplication. -/
theorem ndSmul_nil (r : ℝ) (x : NDArray []) : r • x = r * x := rfl

/-- Pointwise application of a finite sum of arrays. -/
theorem ndApply_sum {n : ℕ} {s : List ℕ} {ι : Type} (t : Finset ι)
    (f : ι → NDArray (n :: s)) (i : Fin n) :
    (∑ d in t, f d) i = ∑ d in t, f d i := by
  classical
  induction t using Finset.cons_induction with
  | empty => rfl
  | cons a t ha ih =>
    rw [Finset.sum_cons, Finset.sum_cons, ndApply_add, ih]

/-- The inner product with a zero left argument vanishes. -/
theorem ndDot_zero_left : ∀ (s : List ℕ) (y : NDArray s), ndDot s 0 y = 0
  | [], y => zero_mul y
  | _n :: s, y => by
    simp only [ndDot]
    refine Finset.sum_eq_zero (fun i _ => ?_)
    rw [ndApply_zero]
    exact ndDot_zero_left s (y i)

/-- The inner product with a zero right argument vanishes. -/
theorem ndDot_zero_right : ∀ (s : List ℕ) (x : NDArray s), ndDot s x 0 = 0
  | [], x => mul_zero x
  | _n :: s, x => by
    simp only [ndDot]
    refine Finset.sum_eq_zero (fun i _ => ?_)
    rw [ndApply_zero]
    exact ndDot_zero_right s (x i)

/-- The inner product is additive in the left argument over subtraction. -/
theorem ndDot_sub_left : ∀ (s : List ℕ) (x y z : NDArray s),
    ndDot s (x - y) z = ndDot s x z - ndDot s y z
  | [], x, y, z => sub_mul x y z
  | _n :: s, x, y, z => by
    simp only [ndDot]
    rw [← Finset.sum_sub_distrib]
    refine Finset.sum_congr rfl (fun i _ => ?_)
    rw [ndApply_sub]
    exact ndDot_sub_left s (x i) (y i) (z i)

/-- The inner product is additive in the right argument over
subtraction. -/
theorem ndDot_sub_right : ∀ (s : List ℕ) (x y z : NDArray s),
    ndDot s x (y - z) = ndDot s x y - ndDot s x z
  | [], x, y, z => mul_sub x y z
  | _n :: s, x, y, z => by
    simp only [ndDot]
    rw [← Finset.sum_sub_distrib]
    refine Finset.sum_congr rfl (fun i _ => ?_)
    rw [ndApply_sub]
    exact ndDot_sub_right s (x i) (y i) (z i)

/-- The inner product is additive in the right argument. -/
theorem ndDot_add_right : ∀ (s : List ℕ) (x y z : NDArray s),
    ndDot s x (y + z) = ndDot s x y + ndDot s x z
  | [], x, y, z => mul_add x y z
  | _n :: s, x, y, z => by
    simp only [ndDot]
    rw [← Finset.sum_add_distrib]
    refine Finset.sum_congr rfl (fun i _ => ?_)
    rw [ndApply_add]
    exact ndDot_add_right s (x i) (y i) (z i)

/-- Scalars factor out of the left argument of the inner product. -/
theorem ndDot_smul_left : ∀ (s : List ℕ) (r : ℝ) (x y : NDArray s),
    ndDot s (r • x) y = r * ndDot s x y
  | [], r, x, y => by
    rw [ndSmul_nil]
    exact mul_assoc r x y
  | _n :: s, r, x, y => by
    simp only [ndDot]
    rw [Finset.mul_sum]
    refine Finset.sum_congr rfl (fun i _ => ?_)
    rw [ndApply_smul]
    exact ndDot_smul_left s r (x i) (y i)

/-- Scalars factor out of the right argument of the inner product. -/
theorem ndDot_smul_right : ∀ (s : List ℕ) (r : ℝ) (x y : NDArray s),
    ndDot s x (r • y) = r * ndDot s x y
  | [], r, x, y => by
    rw [ndSmul_nil]
    simp only [ndDot]
    ring
  | _n :: s, r, x, y => by
    simp only [ndDot]
    rw [Finset.mul_sum]
    refine Finset.sum_congr rfl (fun i _ => ?_)
    rw [ndApply_smul]
    exact ndDot_smul_right s r (x i) (y i)

/-- The inner product distributes over finite sums in the right
argument. -/
theorem ndDot_sum_right (s : List ℕ) {ι : Type} (x : NDArray s)
    (t : Finset ι) (f : ι → NDArray s) :
    ndDot s x (∑ d in t, f d) = ∑ d in t, ndDot s x (f d) := by
  classical
  induction t using Finset.cons_induction with
  | empty =>
    rw [Finset.sum_empty, Finset.sum_empty]
    exact ndDot_zero_right s x
  | cons a t ha ih =>
    rw [Finset.sum_cons, Finset.sum_cons, ndDot_add_right, ih]

/-- The zero-extension agrees with the array below the bound. -/
theorem ndExt_lt {n : ℕ} {s : List ℕ} (u : Fin n → NDArray s) {j : ℕ}
    (h : j < n) : ndExt u j = u ⟨j, h⟩ := dif_pos h

/-- Boundary reindexing of a one-dimensional stencil sum: summing the
super-diagonal entries over positions with a successor equals summing the
sub-diagonal entries over positions with a predecessor. -/
theorem sum_shift (n : ℕ) (F : ℕ → ℕ → ℝ) :
    ∑ j in Finset.range n, (if j + 1 < n then F (j + 1) j else 0) =
      ∑ j in Finset.range n, (if 0 < j then F j (j - 1) else 0) := by
  cases n with
  | zero => simp
  | succ m =>
    have hR : ∑ j in Finset.range (m + 1),
        (if 0 < j then F j (j - 1) else 0) =
          ∑ j in Finset.range m, F (j + 1) j := by
      rw [Finset.sum_range_succ']
      simp
    have hL : ∑ j in Finset.range (m + 1),
        (if j + 1 < m + 1 then F (j + 1) j else 0) =
          ∑ j in Finset.range m, F (j + 1) j := by
      rw [Finset.sum_range_succ]
      have hlast : (if m + 1 < m + 1 then F (m + 1) m else 0) = 0 := by simp
      rw [hlast, add_zero]
      refine Finset.sum_congr rfl (fun j hj => ?_)
      have hjm : j < m := Finset.mem_range.mp hj
      rw [if_pos (by omega)]
    rw [hL, hR]

/-- Per-axis adjointness up to sign: along every axis of the image shape,
the forward-difference operator of gradient_id and the divergence stencil
of div_id are negative adjoints of one another. -/
theorem gradAxis_divAxis_adjoint :
    ∀ (s : List ℕ) (d : ℕ), d < s.length → ∀ (u g : NDArray s),
      ndDot s (gradAxis s d u) g = -ndDot s u (divAxis s d g)
  | [], d, hd, u, g => absurd hd (by simp)
  | n :: s, d + 1, hd, u, g => by
    simp only [gradAxis, divAxis, ndDot]
    rw [← Finset.sum_neg_distrib]
    refine Finset.sum_congr rfl (fun i _ => ?_)
    exact gradAxis_divAxis_adjoint s d (by simpa using hd) (u i) (g i)
  | n :: s, 0, _, u, g => by
    simp only [gradAxis, divAxis, ndDot]
    have hL : ∀ i : Fin n,
        ndDot s (if h : (i : ℕ) + 1 < n then u ⟨(i : ℕ) + 1, h⟩ - u i else 0)
          (g i) =
        (if (i : ℕ) + 1 < n then
          ndDot s (ndExt u ((i : ℕ) + 1)) (ndExt g (i : ℕ)) -
            ndDot s (ndExt u (i : ℕ)) (ndExt g (i : ℕ)) else 0) := by
      intro i
      by_cases h : (i : ℕ) + 1 < n
      · rw [dif_pos h, if_pos h]
        rw [ndExt_lt u h, ndExt_lt u i.isLt, ndExt_lt g i.isLt]
        simp only [Fin.eta]
        exact ndDot_sub_left s _ _ _
      · rw [dif_neg h, if_neg h]
        exact ndDot_zero_left s (g i)
    have hR : ∀ i : Fin n,
        ndDot s (u i)
          ((if (i : ℕ) + 1 < n then g i else 0) -
            (if 0 < (i : ℕ) then
              g ⟨(i : ℕ) - 1, Nat.lt_of_le_of_lt (Nat.sub_le _ _) i.isLt⟩
            else 0)) =
        ((if (i : ℕ) + 1 < n then
            ndDot s (ndExt u (i : ℕ)) (ndExt g (i : ℕ)) else 0) -
          (if 0 < (i : ℕ) then
            ndDot s (ndExt u (i : ℕ)) (ndExt g ((i : ℕ) - 1)) else 0)) := by
      intro i
      rw [ndDot_sub_right]
      congr 1
      · by_cases h : (i : ℕ) + 1 < n
        · rw [if_pos h, if_pos h, ndExt_lt u i.isLt, ndExt_lt g i.isLt]
        · rw [if_neg h, if_neg h]
          exact ndDot_zero_right s (u i)
      · by_cases h : 0 < (i : ℕ)
        · rw [if_pos h, if_pos h, ndExt_lt u i.isLt,
            ndExt_lt g (Nat.lt_of_le_of_lt (Nat.sub_le (i : ℕ) 1) i.isLt)]
        · rw [if_neg h, if_neg h]
          exact ndDot_zero_right s (u i)
    calc ∑ i : Fin n,
          ndDot s
            (if h : (i : ℕ) + 1 < n then u ⟨(i : ℕ) + 1, h⟩ - u i else 0)
            (g i)
        = ∑ j in Finset.range n,
            (if j + 1 < n then
              ndDot s (ndExt u (j + 1)) (ndExt g j) -
                ndDot s (ndExt u j) (ndExt g j) else 0) := by
          rw [← Fin.sum_univ_eq_sum_range]
          exact Finset.sum_congr rfl (fun i _ => hL i)
      _ = (∑ j in Finset.range n,
            (if j + 1 < n then
              ndDot s (ndExt u (j + 1)) (ndExt g j) else 0)) -
          ∑ j in Finset.range n,
            (if j + 1 < n then ndDot s (ndExt u j) (ndExt g j) else 0) := by
          rw [← Finset.sum_sub_distrib]
          refine Finset.sum_congr rfl (fun j _ => ?_)
          split
          · rfl
          · rw [sub_zero]
      _ = (∑ j in Finset.range n,
            (if 0 < j then
              ndDot s (ndExt u j) (ndExt g (j - 1)) else 0)) -
          ∑ j in Finset.range n,
            (if j + 1 < n then ndDot s (ndExt u j) (ndExt g j) else 0) := by
          rw [sum_shift n (fun a b => ndDot s (ndExt u a) (ndExt g b))]
      _ = -∑ j in Finset.range n,
            ((if j + 1 < n then ndDot s (ndExt u j) (ndExt g j) else 0) -
              (if 0 < j then ndDot s (ndExt u j) (ndExt g (j - 1)) else 0)) := by
          rw [Finset.sum_sub_distrib]
          ring
      _ = -∑ i : Fin n,
            ndDot s (u i)
              ((if (i : ℕ) + 1 < n then g i else 0) -
                (if 0 < (i : ℕ) then
                  g ⟨(i : ℕ) - 1,
                    Nat.lt_of_le_of_lt (Nat.sub_le _ _) i.isLt⟩
                else 0)) := by
          congr 1
          rw [← Fin.sum_univ_eq_sum_range]
          exact (Finset.sum_congr rfl (fun i _ => hR i)).symm

/-- Claim C1 (amended): for every l1_ratio in [0, 1], every image shape
and image u, and every stacked array v of shape (ndim + 1, *u.shape), the
inner product of gradient_id(u, r) with v equals MINUS the inner product
of u with div_id(v, r): div_id is the exact negative adjoint of
gradient_id (the Chambolle divergence convention, which these operators
implement). -/
theorem claim_C1_gradient_div_adjoint (s : List ℕ) (r : ℝ) (u : NDArray s)
    (v : Fin (s.length + 1) → NDArray s) (hr0 : 0 ≤ r) (hr1 : r ≤ 1) :
    (∑ k, ndDot s (gradient_id s r u k) (v k)) =
      -ndDot s u (div_id s r v) := by
  rw [Fin.sum_univ_castSucc]
  have hcast : ∀ k : Fin s.length,
      gradient_id s r u k.castSucc = (1 - r) • gradAxis s (k : ℕ) u := by
    intro k
    rw [gradient_id, dif_pos (show ((k.castSucc : Fin (s.length + 1)) : ℕ) <
      s.length by simpa using k.isLt)]
    rfl
  have hlast : gradient_id s r u (Fin.last s.length) = r • u := by
    rw [gradient_id, dif_neg (by simp)]
  have hadj : ∀ k : Fin s.length,
      ndDot s (gradAxis s (k : ℕ) u) (v k.castSucc) =
        -ndDot s u (divAxis s (k : ℕ) (v k.castSucc)) :=
    fun k => gradAxis_divAxis_adjoint s (k : ℕ) k.isLt u (v k.castSucc)
  rw [hlast]
  simp only [hcast, ndDot_smul_left, hadj]
  rw [div_id, ndDot_sub_right, ndDot_smul_right, ndDot_smul_right,
    ndDot_sum_right]
  simp only [mul_neg]
  rw [Finset.sum_neg_distrib, ← Finset.mul_sum]
  ring

/-- Concrete witness for claim C1 (amended): the signed adjointness
identity at l1_ratio one half on a constant one-dimensional image of
length two. -/
theorem claim_C1_gradient_div_adjoint_witness :
    (0 : ℝ) ≤ 1 / 2 ∧ (1 / 2 : ℝ) ≤ 1 ∧
    (∑ k, ndDot [2]
        (gradient_id [2] (1 / 2) (fun _ => (1 : ℝ)) k)
        ((fun _ _ => (1 : ℝ)) k)) =
      -ndDot [2] (fun _ => (1 : ℝ))
        (div_id [2] (1 / 2) (fun _ _ => (1 : ℝ))) :=
  ⟨by norm_num, by norm_num,
    claim_C1_gradient_div_adjoint [2] (1 / 2) (fun _ => (1 : ℝ))
      (fun _ _ => (1 : ℝ)) (by norm_num) (by norm_num)⟩

/-- Counterexample to claim C1 as stated: on the one-dimensional image
[1, 0] with l1_ratio 0 and the stacked test array with first channel
[1, 0], the inner product of gradient_id(u) with v is -1 while the inner
product of u with div_id(v) is 1, so the unsigned identity of the claim
fails (the adjointness holds only with the minus sign). -/
theorem claim_C1_counterexample :
    (∑ k, ndDot [2] (gradient_id [2] 0 uC k) (vC k)) = -1 ∧
    ndDot [2] uC (div_id [2] 0 vC) = 1 ∧
    ¬((∑ k, ndDot [2] (gradient_id [2] 0 uC k) (vC k)) =
      ndDot [2] uC (div_id [2] 0 vC)) := by
  have hL : (∑ k, ndDot [2] (gradient_id [2] 0 uC k) (vC k)) = -1 := by
    show (∑ k : Fin 2, ndDot [2] (gradient_id [2] 0 uC k) (vC k)) = -1
    rw [Fin.sum_univ_two]
    norm_num [ndDot, gradient_id, gradAxis, uC, vC, Fin.sum_univ_two,
      ndApply_smul, ndApply_sub, ndApply_zero, ndSmul_nil, Fin.isValue]
  have hR : ndDot [2] uC (div_id [2] 0 vC) = 1 := by
    norm_num [ndDot, div_id, divAxis, uC, vC, Fin.sum_univ_two,
      Fin.sum_univ_one, ndApply_smul, ndApply_sub, ndApply_zero, ndApply_sum,
      ndSmul_nil, Fin.isValue, Fin.castSucc_zero, Fin.val_last]
  refine ⟨hL, hR, ?_⟩
  rw [hL, hR]
  norm_num

end SpaceNet
